import Mathlib

/-!
Verification of the pg_surgery tuple-surgery engine (contrib module
`heap_surgery.c`).

The development shallowly embeds `heap_force_common` and its helpers
(`tidcmp`, `sanity_check_tid_array`, `sanity_check_relation`,
`tids_same_page_fetch_offnums`) over a pure model of heap pages:

* a page is a list of item slots (line pointers) plus its
  `PD_ALL_VISIBLE` flag; a slot is unused, normal (holding a tuple
  header), a redirect, or dead, mirroring `LP_UNUSED`, `LP_NORMAL`,
  `LP_REDIRECT`, `LP_DEAD`;
* a tuple header keeps the fields that `heap_force_common` touches:
  `t_xmin`, `t_xmax`, the xvac field of `t_field3`, `t_infomask`,
  `t_infomask2` and `t_ctid`, with the numeric bitmask constants taken
  from `htup_details.h`;
* the visibility map is a list of booleans, one all-visible bit per
  block;
* `ereport(ERROR)` aborts are an `Except` error; `ereport(NOTICE)`
  messages are accumulated as values of an inductive `Notice` type;
* buffer reads (`ReadBuffer`) are recorded in a trace of block numbers;
  locking, WAL logging and `CHECK_FOR_INTERRUPTS` have no observable
  effect on the modelled state and are not represented;
* the unbounded C `while (ItemIdIsRedirected(itemid))` loop is given
  explicit fuel equal to the page's slot count; exhausting the fuel
  (i.e. the C loop would still be chasing redirects after as many hops
  as the page has slots) makes the whole computation return `none`,
  modelling divergence;
* `curr_start_ptr`/`next_start_ptr` are 16-bit `OffsetNumber`
  variables in C; the stores into them are modelled with explicit
  `% 65536` reductions.
-/

set_option maxHeartbeats 4000000

namespace PgSurgery

/-- An item pointer: block number (`BlockNumber`, 32 bits) and offset
number (`OffsetNumber`, 16 bits). -/
structure ItemPointerData where
  blkno : Nat
  offno : Nat
deriving DecidableEq, Repr

/-- `InvalidBlockNumber` (0xFFFFFFFF). -/
def InvalidBlockNumber : Nat := 4294967295

/-- `FrozenTransactionId` (sentinel "frozen"). -/
def FrozenTransactionId : Nat := 2

/-- `InvalidTransactionId` (sentinel "none"). -/
def InvalidTransactionId : Nat := 0

/-- `HEAP_XMIN_COMMITTED` (0x0100). -/
def HEAP_XMIN_COMMITTED : Nat := 256

/-- `HEAP_XMIN_INVALID` (0x0200). -/
def HEAP_XMIN_INVALID : Nat := 512

/-- `HEAP_XMIN_FROZEN` (0x0300): committed and invalid together. -/
def HEAP_XMIN_FROZEN : Nat := 768

/-- `HEAP_XMAX_INVALID` (0x0800). -/
def HEAP_XMAX_INVALID : Nat := 2048

/-- `HEAP_MOVED_OFF` (0x4000). -/
def HEAP_MOVED_OFF : Nat := 16384

/-- `HEAP_MOVED_IN` (0x8000). -/
def HEAP_MOVED_IN : Nat := 32768

/-- `HEAP_MOVED` (0xC000). -/
def HEAP_MOVED : Nat := 49152

/-- `HEAP_XACT_MASK` (0xFFF0): the whole visibility-related bitmask of
`t_infomask`. -/
def HEAP_XACT_MASK : Nat := 65520

/-- `HEAP_HOT_UPDATED` (0x4000), a bit of `t_infomask2`. -/
def HEAP_HOT_UPDATED : Nat := 16384

/-- `HEAP_KEYS_UPDATED` (0x2000), a bit of `t_infomask2`. -/
def HEAP_KEYS_UPDATED : Nat := 8192

/-- The tuple-header fields read or written by `heap_force_common`:
`t_xmin`, `t_xmax`, the xvac member of `t_field3`, the two infomask
words and the self-location pointer `t_ctid`. -/
structure HeapTupleHeader where
  t_xmin : Nat
  t_xmax : Nat
  t_xvac : Nat
  t_infomask : Nat
  t_infomask2 : Nat
  t_ctid : ItemPointerData
deriving DecidableEq, Repr

/-- A line pointer (`ItemIdData`): `LP_UNUSED`, `LP_NORMAL` (the model
stores the tuple header the slot points to directly in the slot),
`LP_REDIRECT` (with its link), or `LP_DEAD`.  `ItemIdSetDead` stores
`LP_DEAD` with no storage reference, which is the `dead` constructor. -/
inductive ItemId where
  | unused
  | normal (htup : HeapTupleHeader)
  | redirect (link : Nat)
  | dead
deriving DecidableEq, Repr

/-- `ItemIdIsUsed`: everything but `LP_UNUSED`. -/
def ItemIdIsUsed : ItemId → Bool
  | .unused => false
  | _ => true

/-- `ItemIdIsDead`. -/
def ItemIdIsDead : ItemId → Bool
  | .dead => true
  | _ => false

/-- `ItemIdIsRedirected`. -/
def ItemIdIsRedirected : ItemId → Bool
  | .redirect _ => true
  | _ => false

/-- `ItemIdIsNormal`. -/
def ItemIdIsNormal : ItemId → Bool
  | .normal _ => true
  | _ => false

/-- A heap page: its line-pointer array (slot `off` lives at list index
`off - 1`; `PageGetMaxOffsetNumber` is the list length) and the
`PD_ALL_VISIBLE` header flag. -/
structure Page where
  items : List ItemId
  allVisible : Bool
deriving DecidableEq, Repr

/-- `PageGetItemId(page, off)`.  Offsets are 1-based; offset 0 or an
offset beyond the line-pointer array is out of range (reading it is
undefined behaviour in C and is modelled as an unused slot). -/
def PageGetItemId (items : List ItemId) (off : Nat) : ItemId :=
  if off = 0 then .unused else items.getD (off - 1) .unused

/-- The `while (ItemIdIsRedirected(itemid))` loop of
`heap_force_common`, with explicit fuel: each hop follows the redirect
link of the current slot.  `none` models the C loop still chasing
redirects after `fuel` hops. -/
def followRedirects (items : List ItemId) : Nat → Nat → Option Nat
  | 0, off => if ItemIdIsRedirected (PageGetItemId items off) then none else some off
  | fuel + 1, off =>
    match PageGetItemId items off with
    | .redirect link => followRedirects items fuel link
    | _ => some off

/-- The redirect link of the slot at `off`, when the slot is a
redirect. -/
def redirectTarget (items : List ItemId) (off : Nat) : Option Nat :=
  match PageGetItemId items off with
  | .redirect link => some link
  | _ => none

/-- `k`-fold iteration of `redirectTarget`: the slot reached after
exactly `k` forced redirect hops from `off`. -/
def chainIter (items : List ItemId) : Nat → Nat → Option Nat
  | 0, off => some off
  | k + 1, off => (redirectTarget items off).bind (chainIter items k)

/-- No slot lies on a redirect cycle: no positive number of redirect
hops leads from a slot back to itself. -/
def RedirectAcyclic (items : List ItemId) : Prop :=
  ∀ off k, 0 < k → chainIter items k off ≠ some off

/-- The per-row notices `heap_force_common` can emit with
`ereport(NOTICE)`. -/
inductive Notice where
  | blockOutOfRange (blkno : Nat)
  | offsetOutOfRange (blkno off : Nat)
  | alreadyUnused (blkno off : Nat)
  | alreadyDead (blkno off : Nat)
deriving DecidableEq, Repr

/-- The two force options of `HeapTupleForceOption`. -/
inductive HeapTupleForceOption where
  | HEAP_FORCE_KILL
  | HEAP_FORCE_FREEZE
deriving DecidableEq, Repr

/-- The `HEAP_FORCE_FREEZE` branch of the per-offset loop body
(`heap_surgery.c:244-275`), applied to the tuple header of the resolved
normal slot.  `blkno`/`off` are the block number of the page and the
*originally targeted* offset `offnos[i]` (not the redirect target). -/
def freezeTuple (blkno off : Nat) (htup : HeapTupleHeader) : HeapTupleHeader :=
  -- ItemPointerSet(&ctid, blkno, offnos[i]); overwrite t_ctid if it disagrees
  let ctid : ItemPointerData := ⟨blkno, off⟩
  let h1 := if htup.t_ctid ≠ ctid then { htup with t_ctid := ctid } else htup
  -- HeapTupleHeaderSetXmin / HeapTupleHeaderSetXmax
  let h2 := { h1 with t_xmin := FrozenTransactionId, t_xmax := InvalidTransactionId }
  -- MOVED_OFF / MOVED_IN handling of the xvac field
  let h3 :=
    if h2.t_infomask &&& HEAP_MOVED ≠ 0 then
      if h2.t_infomask &&& HEAP_MOVED_OFF ≠ 0 then
        { h2 with t_xvac := InvalidTransactionId }
      else
        { h2 with t_xvac := FrozenTransactionId }
    else h2
  -- infomask &= ~HEAP_XACT_MASK; infomask |= XMIN_FROZEN | XMAX_INVALID;
  -- infomask2 &= ~HEAP_HOT_UPDATED; infomask2 &= ~HEAP_KEYS_UPDATED
  -- (complements are taken within the 16 infomask bits)
  { h3 with
    t_infomask := (h3.t_infomask &&& (65535 ^^^ HEAP_XACT_MASK)) |||
      (HEAP_XMIN_FROZEN ||| HEAP_XMAX_INVALID),
    t_infomask2 := (h3.t_infomask2 &&& (65535 ^^^ HEAP_HOT_UPDATED)) &&&
      (65535 ^^^ HEAP_KEYS_UPDATED) }

/-- The state carried across the per-offset loop of one page group: the
pinned page, the visibility map (one all-visible bit per block), the
notices emitted so far, and the `did_modify_page` / `did_modify_vm`
flags. -/
structure PageSt where
  page : Page
  vm : List Bool
  notices : List Notice
  did_modify_page : Bool
  did_modify_vm : Bool
deriving DecidableEq, Repr

/-- One iteration of the per-offset loop (`heap_surgery.c:178-277`) for
the targeted offset `off` on block `blkno`; `maxoffset` is
`PageGetMaxOffsetNumber(page)` computed when the page was read.
`none` models divergence in the redirect-following loop (the model's
fuel is the page's slot count). -/
def processOffnum (opt : HeapTupleForceOption) (blkno maxoffset : Nat)
    (st : PageSt) (off : Nat) : Option PageSt :=
  if off = 0 ∨ maxoffset < off then
    some { st with notices := st.notices ++ [.offsetOutOfRange blkno off] }
  else
    match followRedirects st.page.items st.page.items.length off with
    | none => none
    | some resolved =>
      let itemid := PageGetItemId st.page.items resolved
      if ItemIdIsUsed itemid = false then
        some { st with notices := st.notices ++ [.alreadyUnused blkno off] }
      else if ItemIdIsDead itemid then
        some { st with notices := st.notices ++ [.alreadyDead blkno off] }
      else
        match itemid with
        | .normal htup =>
          -- Assert(ItemIdIsNormal(itemid)); did_modify_page = true
          let st1 := { st with did_modify_page := true }
          match opt with
          | .HEAP_FORCE_KILL =>
            -- ItemIdSetDead(itemid) acts on the resolved slot
            let page1 : Page := { st1.page with items := st1.page.items.set (resolved - 1) .dead }
            if page1.allVisible then
              some { st1 with
                page := { page1 with allVisible := false },
                vm := st1.vm.set blkno false,
                did_modify_vm := true }
            else
              some { st1 with page := page1 }
          | .HEAP_FORCE_FREEZE =>
            some { st1 with
              page := { st1.page with
                items := st1.page.items.set (resolved - 1) (.normal (freezeTuple blkno off htup)) } }
        | _ =>
          -- unreachable: followRedirects only returns non-redirect slots,
          -- and unused/dead were handled above
          none

/-- The whole per-offset loop over the `offnos` array of one page
group. -/
def processOffnums (opt : HeapTupleForceOption) (blkno maxoffset : Nat) :
    List Nat → PageSt → Option PageSt
  | [], st => some st
  | off :: rest, st =>
    match processOffnum opt blkno maxoffset st off with
    | none => none
    | some st1 => processOffnums opt blkno maxoffset rest st1

/-- State across page groups: the relation's pages, the visibility map,
the emitted notices, and the trace of blocks read with `ReadBuffer`. -/
structure LoopState where
  pages : List Page
  vm : List Bool
  notices : List Notice
  reads : List Nat
deriving DecidableEq, Repr

/-- Placeholder page for out-of-range `List.getD` reads (never reached:
pages are only fetched at block numbers below `nblocks`). -/
def emptyPage : Page := { items := [], allVisible := false }

/-- One iteration of the outer do-while loop (`heap_surgery.c:121-303`)
once the group's block number and offsets are known: the block-range
check with its `BlockOutOfRange` notice, the `ReadBuffer` (recorded in
the read trace), and the per-offset loop.  The visibility-map pin of
line 172-173 has no observable effect on the modelled state. -/
def processGroup (opt : HeapTupleForceOption) (nblocks : Nat)
    (ls : LoopState) (blkno : Nat) (offnos : List Nat) : Option LoopState :=
  if nblocks ≤ blkno then
    some { ls with notices := ls.notices ++ [.blockOutOfRange blkno] }
  else
    let page := ls.pages.getD blkno emptyPage
    let maxoffset := page.items.length
    match processOffnums opt blkno maxoffset offnos
        { page := page, vm := ls.vm, notices := [],
          did_modify_page := false, did_modify_vm := false } with
    | none => none
    | some pst =>
      some { pages := ls.pages.set blkno pst.page,
             vm := pst.vm,
             notices := ls.notices ++ pst.notices,
             reads := ls.reads ++ [blkno] }

/-- The scan of `tids_same_page_fetch_offnums` after its first
iteration: keep consuming tids while the block number equals the
previous element's block number, collecting offset numbers and counting
consumed entries. -/
def fetchAux (prevBlk : Nat) : List ItemPointerData → List Nat × Nat
  | [] => ([], 0)
  | t :: rest =>
    if t.blkno = prevBlk then
      let r := fetchAux t.blkno rest
      (t.offno :: r.1, r.2 + 1)
    else ([], 0)

/-- `tids_same_page_fetch_offnums` (`heap_surgery.c:389-417`): starting
at index `start`, collect the offset numbers of the maximal run of tids
sharing one block number (consecutive elements are compared, and the
first element is always taken).  Returns the run's block number
(`prev_blkno`, which stays `InvalidBlockNumber` when the scan starts at
or past the end), the `offnos` array and the next start index before
its truncating store into the 16-bit `*next_start_ptr`. -/
def tids_same_page_fetch_offnums (tids : List ItemPointerData) (start : Nat) :
    Nat × List Nat × Nat :=
  match tids.drop start with
  | [] => (InvalidBlockNumber, [], start)
  | t :: rest =>
    let r := fetchAux t.blkno rest
    (t.blkno, t.offno :: r.1, start + 1 + r.2)

/-- The outer do-while loop of `heap_force_common`
(`heap_surgery.c:121-303`), with fuel.  `curr` is the current
`curr_start_ptr` (a 16-bit variable); the store of the fetch's result
index into the 16-bit `next_start_ptr` and the 16-bit subtraction
computing `noffs` carry explicit `% 65536` reductions.  Besides the
final state, the trace of `(blkno, offnos)` page groups processed is
returned. -/
def heapForceLoop (opt : HeapTupleForceOption) (nblocks : Nat)
    (tids : List ItemPointerData) (ntids : Nat) :
    Nat → Nat → LoopState → Option (LoopState × List (Nat × List Nat))
  | 0, _, _ => none
  | fuel + 1, curr, ls =>
    let fetched := tids_same_page_fetch_offnums tids curr
    let blkno := fetched.1
    let next16 := fetched.2.2 % 65536
    let noffs := (next16 + 65536 - curr) % 65536
    let offnos := fetched.2.1.take noffs
    match processGroup opt nblocks ls blkno offnos with
    | none => none
    | some ls1 =>
      if next16 = ntids then some (ls1, [(blkno, offnos)])
      else
        match heapForceLoop opt nblocks tids ntids fuel next16 ls1 with
        | none => none
        | some r => some (r.1, (blkno, offnos) :: r.2)

/-- The boolean order underlying `tidcmp` / `ItemPointerCompare`: block
number first, then offset number. -/
def tidLeb (a b : ItemPointerData) : Bool :=
  Nat.blt a.blkno b.blkno ||
    (Nat.beq a.blkno b.blkno && Nat.ble a.offno b.offno)

/-- The `qsort(tids, ntids, sizeof(ItemPointerData), tidcmp)` call,
modelled as a merge sort under the `tidcmp` order. -/
def sortTids (tids : List ItemPointerData) : List ItemPointerData :=
  tids.mergeSort tidLeb

/-- Relation kinds distinguished by `sanity_check_relation`. -/
inductive RelKind where
  | relation
  | matview
  | toastvalue
  | partitioned
  | index
  | view
  | sequence
deriving DecidableEq, Repr

/-- The relkind test of `sanity_check_relation`: ordinary table,
materialized view or TOAST table. -/
def relkindSupported : RelKind → Bool
  | .relation => true
  | .matview => true
  | .toastvalue => true
  | _ => false

/-- The environment facts consulted by the fatal-error checks of
`heap_force_common`: recovery state, nulls in the tid array, the
relation's kind, and ownership. -/
structure CallArgs where
  recoveryInProgress : Bool
  arrayHasNulls : Bool
  relkind : RelKind
  isOwner : Bool
deriving DecidableEq, Repr

/-- The fatal errors (`ereport(ERROR)` / `aclcheck_error`) raised by
`heap_force_common`, `sanity_check_tid_array` and
`sanity_check_relation`. -/
inductive ErrType where
  | recoveryInProgress
  | nullsInArray
  | emptyArray
  | wrongObjectType
  | notOwner
deriving DecidableEq, Repr

/-- `heap_force_common` (`heap_surgery.c:80-311`): the fatal-error
checks in source order, the conditional sort of the tid array, then the
do-while loop over page groups driven by the 16-bit cursors, starting
with fuel `ntids` (an upper bound on the number of page groups of any
terminating run).  `none` models divergence. -/
def heap_force_common (opt : HeapTupleForceOption) (args : CallArgs)
    (tids : List ItemPointerData) (pages : List Page) (vm : List Bool) :
    Option (Except ErrType (LoopState × List (Nat × List Nat))) :=
  if args.recoveryInProgress then some (.error .recoveryInProgress)
  else if args.arrayHasNulls then some (.error .nullsInArray)
  else if tids.length = 0 then some (.error .emptyArray)
  else if relkindSupported args.relkind = false then some (.error .wrongObjectType)
  else if args.isOwner = false then some (.error .notOwner)
  else
    let stids := if 1 < tids.length then sortTids tids else tids
    match heapForceLoop opt pages.length stids tids.length tids.length 0
        { pages := pages, vm := vm, notices := [], reads := [] } with
    | none => none
    | some r => some (.ok r)

/-- `heap_force_kill(regclass, tid[])`. -/
def heap_force_kill (args : CallArgs) (tids : List ItemPointerData)
    (pages : List Page) (vm : List Bool) :
    Option (Except ErrType (LoopState × List (Nat × List Nat))) :=
  heap_force_common .HEAP_FORCE_KILL args tids pages vm

/-- `heap_force_freeze(regclass, tid[])`. -/
def heap_force_freeze (args : CallArgs) (tids : List ItemPointerData)
    (pages : List Page) (vm : List Bool) :
    Option (Except ErrType (LoopState × List (Nat × List Nat))) :=
  heap_force_common .HEAP_FORCE_FREEZE args tids pages vm

/-- The notices of a completed run (empty for an error or a divergent
run). -/
def noticesOf (r : Option (Except ErrType (LoopState × List (Nat × List Nat)))) :
    List Notice :=
  match r with
  | some (.ok p) => p.1.notices
  | _ => []

/-! ### Arithmetic helpers for the infomask updates -/

theorem xact_mask_of_freeze_infomask (x : Nat) :
    ((x &&& 15) ||| 2816) &&& 65520 = 2816 := by
  have h : x &&& 15 < 16 := by
    have := @Nat.and_le_right x 15
    omega
  generalize hx : x &&& 15 = y at h ⊢
  interval_cases y <;> decide

theorem hot_updated_cleared (y : Nat) :
    ((y &&& 49151) &&& 57343) &&& 16384 = 0 := by
  rw [Nat.and_assoc, Nat.and_assoc]
  have h : (49151 &&& (57343 &&& 16384) : Nat) = 0 := by decide
  rw [h, Nat.and_zero]

theorem keys_updated_cleared (y : Nat) :
    ((y &&& 49151) &&& 57343) &&& 8192 = 0 := by
  rw [Nat.and_assoc, Nat.and_assoc]
  have h : (49151 &&& (57343 &&& 8192) : Nat) = 0 := by decide
  rw [h, Nat.and_zero]

/-! ### Basic slot-access lemmas -/

/-- A slot that is not unused lies at a real index of the line-pointer
array. -/
theorem PageGetItemId_ne_unused_bounds {items : List ItemId} {off : Nat}
    (h : PageGetItemId items off ≠ .unused) :
    off ≠ 0 ∧ off - 1 < items.length := by
  unfold PageGetItemId at h
  by_cases h0 : off = 0
  · simp [h0] at h
  · refine ⟨h0, ?_⟩
    by_cases hl : off - 1 < items.length
    · exact hl
    · rw [List.getD_eq_default] at h
      · simp [h0] at h
      · omega

theorem PageGetItemId_set_self {items : List ItemId} {off : Nat} (v : ItemId)
    (h0 : off ≠ 0) (hl : off - 1 < items.length) :
    PageGetItemId (items.set (off - 1) v) off = v := by
  unfold PageGetItemId
  rw [if_neg h0, List.getD_eq_getElem?_getD, List.getElem?_set_self (by simpa using hl)]
  rfl

theorem PageGetItemId_set_ne {items : List ItemId} {off off' : Nat} (v : ItemId)
    (h0 : off ≠ 0) (hne : off ≠ off') :
    PageGetItemId (items.set (off - 1) v) off' = PageGetItemId items off' := by
  unfold PageGetItemId
  by_cases h0' : off' = 0
  · simp [h0']
  · rw [if_neg h0', if_neg h0', List.getD_eq_getElem?_getD, List.getD_eq_getElem?_getD,
      List.getElem?_set_ne (by omega)]

/-! ### The redirect-following loop -/

/-- A successful follow always stops at a non-redirect slot. -/
theorem followRedirects_not_redirected {items : List ItemId} :
    ∀ {fuel off f : Nat}, followRedirects items fuel off = some f →
      ItemIdIsRedirected (PageGetItemId items f) = false := by
  intro fuel
  induction fuel with
  | zero =>
    intro off f h
    unfold followRedirects at h
    by_cases hr : ItemIdIsRedirected (PageGetItemId items off)
    · simp [hr] at h
    · simp [hr] at h
      subst h
      simpa using hr
  | succ n ih =>
    intro off f h
    unfold followRedirects at h
    cases hslot : PageGetItemId items off with
    | redirect link =>
      rw [hslot] at h
      exact ih h
    | unused => rw [hslot] at h; cases h; simp [hslot, ItemIdIsRedirected]
    | normal htup => rw [hslot] at h; cases h; simp [hslot, ItemIdIsRedirected]
    | dead => rw [hslot] at h; cases h; simp [hslot, ItemIdIsRedirected]

/-- If the follow loop is still chasing redirects after `fuel` hops,
every prefix of the hop chain is defined and lands on a redirect
slot. -/
theorem followRedirects_none_chain {items : List ItemId} :
    ∀ {fuel off : Nat}, followRedirects items fuel off = none →
      ∀ k, k ≤ fuel → ∃ o, chainIter items k off = some o ∧
        ItemIdIsRedirected (PageGetItemId items o) = true := by
  intro fuel
  induction fuel with
  | zero =>
    intro off h k hk
    interval_cases k
    unfold followRedirects at h
    by_cases hr : ItemIdIsRedirected (PageGetItemId items off)
    · exact ⟨off, rfl, hr⟩
    · simp [hr] at h
  | succ n ih =>
    intro off h k hk
    unfold followRedirects at h
    cases hslot : PageGetItemId items off with
    | redirect link =>
      rw [hslot] at h
      cases k with
      | zero => exact ⟨off, rfl, by simp [hslot, ItemIdIsRedirected]⟩
      | succ j =>
        obtain ⟨o, ho, hro⟩ := ih h j (by omega)
        refine ⟨o, ?_, hro⟩
        unfold chainIter redirectTarget
        rw [hslot]
        simpa using ho
    | unused => rw [hslot] at h; cases h
    | normal htup => rw [hslot] at h; cases h
    | dead => rw [hslot] at h; cases h

/-- Splitting a hop chain. -/
theorem chainIter_add (items : List ItemId) :
    ∀ (a b off : Nat), chainIter items (a + b) off =
      (chainIter items a off).bind (chainIter items b) := by
  intro a
  induction a with
  | zero => intro b off; simp [chainIter]
  | succ n ih =>
    intro b off
    have hab : n + 1 + b = (n + b) + 1 := by omega
    have e : ∀ (m o : Nat), chainIter items (m + 1) o =
        (redirectTarget items o).bind (chainIter items m) := fun _ _ => rfl
    rw [hab, e, e]
    cases ht : redirectTarget items off with
    | none => simp
    | some t => simpa using ih b t

/-- A redirect slot lies at a real index. -/
theorem redirected_bounds {items : List ItemId} {off : Nat}
    (h : ItemIdIsRedirected (PageGetItemId items off) = true) :
    1 ≤ off ∧ off ≤ items.length := by
  have hne : PageGetItemId items off ≠ .unused := by
    intro he
    rw [he] at h
    simp [ItemIdIsRedirected] at h
  obtain ⟨h0, hl⟩ := PageGetItemId_ne_unused_bounds hne
  omega

/-- On a page with no redirect cycles, the follow loop started at any
offset terminates within as many hops as the page has slots, reaching a
non-redirect slot. -/
theorem followRedirects_of_acyclic {items : List ItemId}
    (hacyc : RedirectAcyclic items) (off : Nat) :
    ∃ f, followRedirects items items.length off = some f ∧
      ItemIdIsRedirected (PageGetItemId items f) = false := by
  cases hres : followRedirects items items.length off with
  | some f => exact ⟨f, rfl, followRedirects_not_redirected hres⟩
  | none =>
    exfalso
    have hchain := followRedirects_none_chain hres
    have hstep : ∀ i j : Nat, i < j → i ≤ items.length → j ≤ items.length →
        (chainIter items i off).getD 0 = (chainIter items j off).getD 0 → False := by
      intro i j hij hi hj heq
      obtain ⟨vi, hvi, _⟩ := hchain i hi
      obtain ⟨vj, hvj, _⟩ := hchain j hj
      rw [hvi, hvj] at heq
      simp at heq
      subst heq
      have hadd : i + (j - i) = j := by omega
      rw [← hadd, chainIter_add, hvi] at hvj
      simp at hvj
      exact hacyc vi (j - i) (by omega) hvj
    have hmaps : ∀ k ∈ Finset.range (items.length + 1),
        (chainIter items k off).getD 0 ∈ Finset.Icc 1 items.length := by
      intro k hk
      simp only [Finset.mem_range] at hk
      obtain ⟨o, ho, hro⟩ := hchain k (by omega)
      rw [ho]
      simp only [Option.getD_some]
      have := redirected_bounds hro
      simp only [Finset.mem_Icc]
      omega
    have hcard : (Finset.Icc 1 items.length).card < (Finset.range (items.length + 1)).card := by
      rw [Nat.card_Icc, Finset.card_range]
      omega
    obtain ⟨i, hi, j, hj, hij, hfeq⟩ :=
      Finset.exists_ne_map_eq_of_card_lt_of_maps_to hcard hmaps
    simp only [Finset.mem_range] at hi hj
    rcases hij.lt_or_lt with h | h
    · exact hstep i j h (by omega) (by omega) hfeq
    · exact hstep j i h (by omega) (by omega) hfeq.symm

/-! ### Field-level facts about `freezeTuple` -/

theorem freezeTuple_t_xmin (blkno off : Nat) (htup : HeapTupleHeader) :
    (freezeTuple blkno off htup).t_xmin = FrozenTransactionId := by
  unfold freezeTuple
  dsimp only
  split_ifs <;> rfl

theorem freezeTuple_t_xmax (blkno off : Nat) (htup : HeapTupleHeader) :
    (freezeTuple blkno off htup).t_xmax = InvalidTransactionId := by
  unfold freezeTuple
  dsimp only
  split_ifs <;> rfl

theorem freezeTuple_t_ctid (blkno off : Nat) (htup : HeapTupleHeader) :
    (freezeTuple blkno off htup).t_ctid = ⟨blkno, off⟩ := by
  unfold freezeTuple
  dsimp only
  split_ifs with h1 h2 h3 <;> simp_all [not_not]

theorem freezeTuple_t_infomask (blkno off : Nat) (htup : HeapTupleHeader) :
    (freezeTuple blkno off htup).t_infomask = (htup.t_infomask &&& 15) ||| 2816 := by
  unfold freezeTuple
  dsimp only
  split_ifs <;> rfl

theorem freezeTuple_t_infomask2 (blkno off : Nat) (htup : HeapTupleHeader) :
    (freezeTuple blkno off htup).t_infomask2 = (htup.t_infomask2 &&& 49151) &&& 57343 := by
  unfold freezeTuple
  dsimp only
  split_ifs <;> rfl

/-! ### Claim C1 -/

/-- C1: for every targeted row identifier that resolves (after redirect
following) to a normal slot, `heap_force_freeze` replaces that slot's
tuple header with one whose xmin is the frozen sentinel, whose xmax is
the invalid sentinel, whose `t_ctid` is exactly `(blockNumber, offset)`
of the target, whose `t_infomask` restricted to the transactional mask
`HEAP_XACT_MASK` is exactly `HEAP_XMIN_FROZEN ||| HEAP_XMAX_INVALID`,
and whose `HEAP_HOT_UPDATED` and `HEAP_KEYS_UPDATED` flags are
clear. -/
theorem C1_force_freeze_normal_slot
    (blkno maxoffset off resolved : Nat) (st : PageSt) (htup : HeapTupleHeader)
    (hoff : ¬(off = 0 ∨ maxoffset < off))
    (hfollow : followRedirects st.page.items st.page.items.length off = some resolved)
    (hslot : PageGetItemId st.page.items resolved = .normal htup) :
    processOffnum .HEAP_FORCE_FREEZE blkno maxoffset st off =
      some { st with
        did_modify_page := true,
        page := { st.page with
          items := st.page.items.set (resolved - 1) (.normal (freezeTuple blkno off htup)) } } ∧
      (freezeTuple blkno off htup).t_xmin = FrozenTransactionId ∧
      (freezeTuple blkno off htup).t_xmax = InvalidTransactionId ∧
      (freezeTuple blkno off htup).t_ctid = ⟨blkno, off⟩ ∧
      (freezeTuple blkno off htup).t_infomask &&& HEAP_XACT_MASK =
        (HEAP_XMIN_FROZEN ||| HEAP_XMAX_INVALID) ∧
      (freezeTuple blkno off htup).t_infomask2 &&& HEAP_HOT_UPDATED = 0 ∧
      (freezeTuple blkno off htup).t_infomask2 &&& HEAP_KEYS_UPDATED = 0 := by
  refine ⟨?_, freezeTuple_t_xmin _ _ _, freezeTuple_t_xmax _ _ _, freezeTuple_t_ctid _ _ _,
    ?_, ?_, ?_⟩
  · unfold processOffnum
    rw [if_neg hoff, hfollow]
    simp [hslot, ItemIdIsUsed, ItemIdIsDead]
  · rw [freezeTuple_t_infomask]
    unfold HEAP_XACT_MASK HEAP_XMIN_FROZEN HEAP_XMAX_INVALID
    have h : (768 ||| 2048 : Nat) = 2816 := by decide
    rw [h]
    exact xact_mask_of_freeze_infomask _
  · rw [freezeTuple_t_infomask2]
    unfold HEAP_HOT_UPDATED
    exact hot_updated_cleared _
  · rw [freezeTuple_t_infomask2]
    unfold HEAP_KEYS_UPDATED
    exact keys_updated_cleared _

/-- Sample tuple header used by concrete witnesses. -/
def sampleHeader : HeapTupleHeader :=
  { t_xmin := 100, t_xmax := 200, t_xvac := 0,
    t_infomask := 9475, t_infomask2 := 24579, t_ctid := ⟨5, 9⟩ }

/-- C1 witness: a concrete page whose offset 1 redirects to a normal
slot at offset 2. -/
theorem C1_force_freeze_normal_slot_witness :
    processOffnum .HEAP_FORCE_FREEZE 0 2
      { page := { items := [ItemId.redirect 2, ItemId.normal sampleHeader], allVisible := true },
        vm := [true], notices := [], did_modify_page := false, did_modify_vm := false } 1 =
      some { page := { items := [ItemId.redirect 2,
               ItemId.normal (freezeTuple 0 1 sampleHeader)], allVisible := true },
             vm := [true], notices := [], did_modify_page := true, did_modify_vm := false } ∧
      (freezeTuple 0 1 sampleHeader).t_xmin = FrozenTransactionId ∧
      (freezeTuple 0 1 sampleHeader).t_xmax = InvalidTransactionId ∧
      (freezeTuple 0 1 sampleHeader).t_ctid = ⟨0, 1⟩ ∧
      (freezeTuple 0 1 sampleHeader).t_infomask &&& HEAP_XACT_MASK =
        (HEAP_XMIN_FROZEN ||| HEAP_XMAX_INVALID) ∧
      (freezeTuple 0 1 sampleHeader).t_infomask2 &&& HEAP_HOT_UPDATED = 0 ∧
      (freezeTuple 0 1 sampleHeader).t_infomask2 &&& HEAP_KEYS_UPDATED = 0 := by
  have h := C1_force_freeze_normal_slot 0 2 1 2
    { page := { items := [ItemId.redirect 2, ItemId.normal sampleHeader], allVisible := true },
      vm := [true], notices := [], did_modify_page := false, did_modify_vm := false }
    sampleHeader (by decide) (by decide) (by decide)
  exact h

/-! ### Claim C7 -/

/-- The concrete relation used by the C7 counterexample: one page whose
single slot is already dead. -/
def pageC7 : Page := { items := [ItemId.dead], allVisible := false }

/-- C7 counterexample: `heap_force_freeze` on the tid (0, 1) of a page
whose slot 1 is marked dead emits the `AlreadyDead` notice, so the
notice is not raised only by `heap_force_kill`. -/
theorem C7_counterexample :
    noticesOf (heap_force_freeze ⟨false, false, .relation, true⟩
      [⟨0, 1⟩] [pageC7] [false]) = [Notice.alreadyDead 0 1] := by
  decide

/-- Shared helper: for either force option, a targeted offset in range
whose redirect-resolved slot is dead is skipped with exactly the
`AlreadyDead` notice. -/
theorem processOffnum_dead_skip
    (opt : HeapTupleForceOption) (blkno maxoffset off resolved : Nat) (st : PageSt)
    (hoff : ¬(off = 0 ∨ maxoffset < off))
    (hfollow : followRedirects st.page.items st.page.items.length off = some resolved)
    (hdead : PageGetItemId st.page.items resolved = .dead) :
    processOffnum opt blkno maxoffset st off =
      some { st with notices := st.notices ++ [.alreadyDead blkno off] } := by
  unfold processOffnum
  rw [if_neg hoff, hfollow]
  simp [hdead, ItemIdIsUsed, ItemIdIsDead]

/-- C7 (amended): the `AlreadyDead` skip notice is emitted by both
operations, not only by `heap_force_kill`: for either force option, a
targeted offset in range whose redirect-resolved slot is marked dead is
skipped with exactly the `AlreadyDead` notice and no other state
change. -/
theorem C7_alreadyDead_skip_both_options
    (opt : HeapTupleForceOption) (blkno maxoffset off resolved : Nat) (st : PageSt)
    (hoff : ¬(off = 0 ∨ maxoffset < off))
    (hfollow : followRedirects st.page.items st.page.items.length off = some resolved)
    (hdead : PageGetItemId st.page.items resolved = .dead) :
    processOffnum opt blkno maxoffset st off =
      some { st with notices := st.notices ++ [.alreadyDead blkno off] } :=
  processOffnum_dead_skip opt blkno maxoffset off resolved st hoff hfollow hdead

/-- C7 witness: the amended theorem applied to `heap_force_freeze`'s
option at a concrete dead slot. -/
theorem C7_alreadyDead_skip_both_options_witness :
    processOffnum .HEAP_FORCE_FREEZE 0 1
      { page := pageC7, vm := [false], notices := [],
        did_modify_page := false, did_modify_vm := false } 1 =
      some { page := pageC7, vm := [false], notices := [Notice.alreadyDead 0 1],
             did_modify_page := false, did_modify_vm := false } := by
  have h := C7_alreadyDead_skip_both_options .HEAP_FORCE_FREEZE 0 1 1 1
    { page := pageC7, vm := [false], notices := [],
      did_modify_page := false, did_modify_vm := false }
    (by decide) (by decide) (by decide)
  exact h

/-! ### Claim C8 -/

/-- C8 counterexample: on a page whose two slots redirect to each
other, following the chain from offset 1 does not reach a non-redirect
slot within the page's slot capacity (the C loop chases the cycle
forever). -/
theorem C8_counterexample :
    followRedirects [ItemId.redirect 2, ItemId.redirect 1]
      ([ItemId.redirect 2, ItemId.redirect 1] : List ItemId).length 1 = none := by
  decide

/-- C8 (amended): on every page state whose redirect links are acyclic
(no slot reaches itself by a positive number of redirect hops), the
follow loop started at any targeted offset terminates within a number
of hops bounded by the page's slot capacity and reaches a non-redirect
slot. -/
theorem C8_followRedirects_bounded_of_acyclic
    (items : List ItemId) (off : Nat) (hacyc : RedirectAcyclic items) :
    ∃ f, followRedirects items items.length off = some f ∧
      ItemIdIsRedirected (PageGetItemId items f) = false :=
  followRedirects_of_acyclic hacyc off

/-- The redirect structure of the C8 witness page: only slot 1 is a
redirect, and it links to the normal slot 2. -/
theorem redirectTarget_C8_witness_page :
    ∀ off, redirectTarget [ItemId.redirect 2, ItemId.normal sampleHeader] off =
      if off = 1 then some 2 else none := by
  intro off
  match off with
  | 0 => rfl
  | 1 => rfl
  | 2 => rfl
  | (n + 3) =>
    have h : ([ItemId.redirect 2, ItemId.normal sampleHeader] : List ItemId).getD (n + 2)
        .unused = .unused := List.getD_eq_default _ _ (by simp)
    simp [redirectTarget, PageGetItemId, h]

/-- The C8 witness page has no redirect cycle. -/
theorem redirectAcyclic_C8_witness_page :
    RedirectAcyclic [ItemId.redirect 2, ItemId.normal sampleHeader] := by
  intro off k hk heq
  cases k with
  | zero => omega
  | succ j =>
    have e : chainIter [ItemId.redirect 2, ItemId.normal sampleHeader] (j + 1) off =
        (redirectTarget [ItemId.redirect 2, ItemId.normal sampleHeader] off).bind
          (chainIter [ItemId.redirect 2, ItemId.normal sampleHeader] j) := rfl
    rw [e, redirectTarget_C8_witness_page] at heq
    by_cases h1 : off = 1
    · subst h1
      simp only [if_true, reduceIte, Option.some_bind] at heq
      cases j with
      | zero => simp [chainIter] at heq
      | succ i =>
        have e2 : chainIter [ItemId.redirect 2, ItemId.normal sampleHeader] (i + 1) 2 =
            (redirectTarget [ItemId.redirect 2, ItemId.normal sampleHeader] 2).bind
              (chainIter [ItemId.redirect 2, ItemId.normal sampleHeader] i) := rfl
        rw [e2] at heq
        rw [redirectTarget_C8_witness_page] at heq
        simp at heq
    · simp [h1] at heq

/-- C8 witness: the amended theorem evaluated on a concrete acyclic
page with one redirect. -/
theorem C8_followRedirects_bounded_of_acyclic_witness :
    ∃ f, followRedirects [ItemId.redirect 2, ItemId.normal sampleHeader]
        ([ItemId.redirect 2, ItemId.normal sampleHeader] : List ItemId).length 1 = some f ∧
      ItemIdIsRedirected (PageGetItemId [ItemId.redirect 2, ItemId.normal sampleHeader] f) =
        false :=
  C8_followRedirects_bounded_of_acyclic _ 1 redirectAcyclic_C8_witness_page

/-! ### More list helpers -/

theorem getD_set_self_of_lt {α : Type} (l : List α) (n : Nat) (v d : α)
    (h : n < l.length) : (l.set n v).getD n d = v := by
  rw [List.getD_eq_getElem?_getD, List.getElem?_set_self (by simpa using h)]
  rfl

theorem set_getD_eq_self {α : Type} (l : List α) (n : Nat) (d : α)
    (h : n < l.length) : l.set n (l.getD n d) = l := by
  apply List.ext_getElem?
  intro i
  rw [List.getElem?_set]
  split_ifs with h1
  · subst h1
    rw [List.getD_eq_getElem?_getD]
    cases he : l[n]? with
    | none => simp [List.getElem?_eq_none_iff] at he; omega
    | some a => simp
  · rfl

/-! ### Follow loop is stable under rewriting its endpoint -/

/-- Writing a non-redirect value into the slot the follow loop ends at
does not change where the follow loop ends. -/
theorem followRedirects_set_nonredirect {items : List ItemId} (v : ItemId)
    (hv : ItemIdIsRedirected v = false) {f : Nat}
    (hf0 : f ≠ 0) (hflen : f - 1 < items.length) :
    ∀ {fuel off : Nat}, followRedirects items fuel off = some f →
      followRedirects (items.set (f - 1) v) fuel off = some f := by
  intro fuel
  induction fuel with
  | zero =>
    intro off h
    unfold followRedirects at h ⊢
    by_cases hr : ItemIdIsRedirected (PageGetItemId items off)
    · simp [hr] at h
    · simp [hr] at h
      subst h
      rw [PageGetItemId_set_self v hf0 hflen]
      simp [hv]
  | succ n ih =>
    intro off h
    have hnr := followRedirects_not_redirected h
    unfold followRedirects at h ⊢
    cases hslot : PageGetItemId items off with
    | redirect link =>
      rw [hslot] at h
      have hofff : off ≠ f := by
        intro he
        rw [he] at hslot
        rw [hslot] at hnr
        simp [ItemIdIsRedirected] at hnr
      rw [PageGetItemId_set_ne v hf0 (fun he => hofff he.symm), hslot]
      exact ih h
    | unused =>
      rw [hslot] at h
      cases h
      rw [PageGetItemId_set_self v hf0 hflen]
      cases v <;> simp_all [ItemIdIsRedirected]
    | normal htup =>
      rw [hslot] at h
      cases h
      rw [PageGetItemId_set_self v hf0 hflen]
      cases v <;> simp_all [ItemIdIsRedirected]
    | dead =>
      rw [hslot] at h
      cases h
      rw [PageGetItemId_set_self v hf0 hflen]
      cases v <;> simp_all [ItemIdIsRedirected]

/-! ### The kill branch of the per-offset loop -/

/-- Shared helper: `heap_force_kill` on a targeted offset in range
whose redirect-resolved slot is normal marks that slot dead, and clears
the all-visible flag and the visibility-map bit exactly when the page
was all-visible. -/
theorem processOffnum_kill_normal
    (blkno maxoffset off f : Nat) (st : PageSt) (htup : HeapTupleHeader)
    (hoff : ¬(off = 0 ∨ maxoffset < off))
    (hfollow : followRedirects st.page.items st.page.items.length off = some f)
    (hslot : PageGetItemId st.page.items f = .normal htup) :
    processOffnum .HEAP_FORCE_KILL blkno maxoffset st off =
      some (if st.page.allVisible then
        { st with
          page := { items := st.page.items.set (f - 1) .dead, allVisible := false },
          vm := st.vm.set blkno false,
          did_modify_page := true, did_modify_vm := true }
      else
        { st with
          page := { items := st.page.items.set (f - 1) .dead,
                    allVisible := st.page.allVisible },
          did_modify_page := true }) := by
  unfold processOffnum
  rw [if_neg hoff, hfollow]
  simp only [hslot, ItemIdIsUsed, ItemIdIsDead]
  norm_num
  split_ifs with hav <;> simp [hav]

/-- Shared helper: a single-offset kill group on a valid block whose
resolved slot is already dead emits exactly the `AlreadyDead` notice,
records the page read, and changes neither the pages nor the visibility
map. -/
theorem processGroup_kill_single_dead
    (nblocks blkno off f : Nat) (ls : LoopState)
    (hlen : blkno < ls.pages.length)
    (hblk : blkno < nblocks)
    (hoff : ¬(off = 0 ∨ (ls.pages.getD blkno emptyPage).items.length < off))
    (hfollow : followRedirects (ls.pages.getD blkno emptyPage).items
      (ls.pages.getD blkno emptyPage).items.length off = some f)
    (hdead : PageGetItemId (ls.pages.getD blkno emptyPage).items f = .dead) :
    processGroup .HEAP_FORCE_KILL nblocks ls blkno [off] =
      some { ls with notices := ls.notices ++ [.alreadyDead blkno off],
                     reads := ls.reads ++ [blkno] } := by
  unfold processGroup
  rw [if_neg (by omega : ¬ nblocks ≤ blkno)]
  simp only [processOffnums]
  rw [processOffnum_dead_skip .HEAP_FORCE_KILL blkno _ off f _ hoff hfollow hdead]
  simp only [processOffnums]
  have hset : ls.pages.set blkno (ls.pages.getD blkno emptyPage) = ls.pages :=
    set_getD_eq_self _ _ _ hlen
  have hset2 : ls.pages.set blkno (ls.pages[blkno]?.getD emptyPage) = ls.pages := by
    rw [← List.getD_eq_getElem?_getD]
    exact hset
  simp [hset, hset2]

/-! ### Claim C5 -/

/-- C5: re-running `heap_force_kill` on a row identifier whose slot a
first successful kill run already marked dead produces exactly the
`AlreadyDead` skip notice and the page read, leaves the pages and the
visibility map unchanged, and raises no error (and does not
diverge). -/
theorem C5_force_kill_idempotent
    (nblocks blkno off f : Nat) (ls : LoopState) (htup : HeapTupleHeader)
    (hlen : blkno < ls.pages.length)
    (hblk : blkno < nblocks)
    (hoff : ¬(off = 0 ∨ (ls.pages.getD blkno emptyPage).items.length < off))
    (hfollow : followRedirects (ls.pages.getD blkno emptyPage).items
      (ls.pages.getD blkno emptyPage).items.length off = some f)
    (hslot : PageGetItemId (ls.pages.getD blkno emptyPage).items f = .normal htup) :
    ∃ ls1, processGroup .HEAP_FORCE_KILL nblocks ls blkno [off] = some ls1 ∧
      processGroup .HEAP_FORCE_KILL nblocks ls1 blkno [off] =
        some { ls1 with notices := ls1.notices ++ [.alreadyDead blkno off],
                        reads := ls1.reads ++ [blkno] } := by
  have hne : PageGetItemId (ls.pages.getD blkno emptyPage).items f ≠ .unused := by
    rw [hslot]
    simp
  obtain ⟨hf0, hflt⟩ := PageGetItemId_ne_unused_bounds hne
  have second : ∀ (av : Bool) (vm1 : List Bool) (ns : List Notice) (rs : List Nat),
      processGroup .HEAP_FORCE_KILL nblocks
        { pages := ls.pages.set blkno { items := (ls.pages.getD blkno emptyPage).items.set (f - 1) .dead, allVisible := av },
          vm := vm1, notices := ns, reads := rs } blkno [off] =
        some
          { pages := ls.pages.set blkno { items := (ls.pages.getD blkno emptyPage).items.set (f - 1) .dead, allVisible := av },
            vm := vm1, notices := ns ++ [.alreadyDead blkno off], reads := rs ++ [blkno] } := by
    intro av vm1 ns rs
    have hget : (ls.pages.set blkno { items := (ls.pages.getD blkno emptyPage).items.set (f - 1) .dead, allVisible := av }).getD blkno emptyPage =
        ({ items := (ls.pages.getD blkno emptyPage).items.set (f - 1) .dead, allVisible := av } : Page) :=
      getD_set_self_of_lt _ _ _ _ hlen
    have h1 : blkno < (ls.pages.set blkno { items := (ls.pages.getD blkno emptyPage).items.set (f - 1) .dead, allVisible := av }).length := by
      simpa [List.length_set] using hlen
    apply processGroup_kill_single_dead nblocks blkno off f _ h1 hblk
    · rw [hget]
      simpa [List.length_set] using hoff
    · rw [hget]
      show followRedirects ((ls.pages.getD blkno emptyPage).items.set (f - 1) .dead)
        ((ls.pages.getD blkno emptyPage).items.set (f - 1) .dead).length off = some f
      rw [List.length_set]
      exact followRedirects_set_nonredirect .dead rfl hf0 hflt hfollow
    · rw [hget]
      exact PageGetItemId_set_self .dead hf0 hflt
  cases hav : (ls.pages.getD blkno emptyPage).allVisible with
  | true =>
    refine
      ⟨{ pages := ls.pages.set blkno { items := (ls.pages.getD blkno emptyPage).items.set (f - 1) .dead, allVisible := false },
         vm := ls.vm.set blkno false, notices := ls.notices,
         reads := ls.reads ++ [blkno] }, ?_, ?_⟩
    · unfold processGroup
      rw [if_neg (by omega : ¬ nblocks ≤ blkno)]
      simp only [processOffnums]
      rw [processOffnum_kill_normal blkno _ off f _ htup hoff hfollow hslot]
      have hav2 : (ls.pages[blkno]?.getD emptyPage).allVisible = true := by
        rw [← List.getD_eq_getElem?_getD]
        exact hav
      simp [hav2]
    · exact second false (ls.vm.set blkno false) ls.notices (ls.reads ++ [blkno])
  | false =>
    refine
      ⟨{ pages := ls.pages.set blkno { items := (ls.pages.getD blkno emptyPage).items.set (f - 1) .dead, allVisible := false },
         vm := ls.vm, notices := ls.notices,
         reads := ls.reads ++ [blkno] }, ?_, ?_⟩
    · unfold processGroup
      rw [if_neg (by omega : ¬ nblocks ≤ blkno)]
      simp only [processOffnums]
      rw [processOffnum_kill_normal blkno _ off f _ htup hoff hfollow hslot]
      have hav2 : (ls.pages[blkno]?.getD emptyPage).allVisible = false := by
        rw [← List.getD_eq_getElem?_getD]
        exact hav
      simp [hav2]
    · exact second false ls.vm ls.notices (ls.reads ++ [blkno])

/-- C5 witness: a one-page relation whose slot 1 holds a normal tuple;
the first kill marks it dead, the second emits `AlreadyDead` and
changes nothing. -/
theorem C5_force_kill_idempotent_witness :
    ∃ ls1, processGroup .HEAP_FORCE_KILL 1
        { pages := [{ items := [ItemId.normal sampleHeader], allVisible := true }],
          vm := [true], notices := [], reads := [] } 0 [1] = some ls1 ∧
      processGroup .HEAP_FORCE_KILL 1 ls1 0 [1] =
        some { ls1 with notices := ls1.notices ++ [.alreadyDead 0 1],
                        reads := ls1.reads ++ [0] } :=
  C5_force_kill_idempotent 1 0 1 1
    { pages := [{ items := [ItemId.normal sampleHeader], allVisible := true }],
      vm := [true], notices := [], reads := [] }
    sampleHeader (by decide) (by decide) (by decide) (by decide) (by decide)

/-! ### Claim C2 -/

theorem getD_set_ne_helper {α : Type} (l : List α) (i j : Nat) (v d : α)
    (h : i ≠ j) : (l.set i v).getD j d = l.getD j d := by
  rw [List.getD_eq_getElem?_getD, List.getD_eq_getElem?_getD, List.getElem?_set_ne h]

/-- Setting a visibility-map bit to false makes reading it yield false,
whether or not the bit lies inside the map. -/
theorem getD_set_false (vm : List Bool) (b : Nat) :
    (vm.set b false).getD b false = false := by
  by_cases hb : b < vm.length
  · exact getD_set_self_of_lt _ _ _ _ hb
  · rw [List.getD_eq_default]
    simp [List.length_set]
    omega

/-- The visibility invariant carried across the per-offset kill loop on
a page whose all-visible flag was set at session start: as long as no
row has been killed, the page and the visibility map are untouched;
once one has, the flag and the map bit are clear. -/
def InvKill (blkno : Nat) (page0 : Page) (vm0 : List Bool) (st : PageSt) : Prop :=
  (st.did_modify_page = false → st.page = page0 ∧ st.vm = vm0) ∧
  (st.did_modify_page = true →
    st.page.allVisible = false ∧ st.vm.getD blkno false = false)

/-- The out-of-range offset skip (`heap_surgery.c:183-189`). -/
theorem processOffnum_out_of_range
    (opt : HeapTupleForceOption) (blkno maxoffset off : Nat) (st : PageSt)
    (h : off = 0 ∨ maxoffset < off) :
    processOffnum opt blkno maxoffset st off =
      some { st with notices := st.notices ++ [.offsetOutOfRange blkno off] } := by
  unfold processOffnum
  rw [if_pos h]

/-- Divergence of the redirect-following loop propagates. -/
theorem processOffnum_follow_none
    (opt : HeapTupleForceOption) (blkno maxoffset off : Nat) (st : PageSt)
    (hoff : ¬(off = 0 ∨ maxoffset < off))
    (h : followRedirects st.page.items st.page.items.length off = none) :
    processOffnum opt blkno maxoffset st off = none := by
  unfold processOffnum
  rw [if_neg hoff, h]

/-- The `AlreadyUnused` skip (`heap_surgery.c:204-207`). -/
theorem processOffnum_unused_skip
    (opt : HeapTupleForceOption) (blkno maxoffset off resolved : Nat) (st : PageSt)
    (hoff : ¬(off = 0 ∨ maxoffset < off))
    (hfollow : followRedirects st.page.items st.page.items.length off = some resolved)
    (hunused : PageGetItemId st.page.items resolved = .unused) :
    processOffnum opt blkno maxoffset st off =
      some { st with notices := st.notices ++ [.alreadyUnused blkno off] } := by
  unfold processOffnum
  rw [if_neg hoff, hfollow]
  simp [hunused, ItemIdIsUsed]

theorem processOffnum_kill_inv (blkno maxoffset off : Nat) (page0 : Page)
    (vm0 : List Bool) (hav : page0.allVisible = true) (st st' : PageSt)
    (hrun : processOffnum .HEAP_FORCE_KILL blkno maxoffset st off = some st')
    (hinv : InvKill blkno page0 vm0 st) : InvKill blkno page0 vm0 st' := by
  by_cases hoff : off = 0 ∨ maxoffset < off
  · rw [processOffnum_out_of_range _ _ _ _ _ hoff] at hrun
    cases hrun
    exact ⟨fun h => hinv.1 h, fun h => hinv.2 h⟩
  · cases hfol : followRedirects st.page.items st.page.items.length off with
    | none =>
      rw [processOffnum_follow_none _ _ _ _ _ hoff hfol] at hrun
      cases hrun
    | some resolved =>
      cases hslot : PageGetItemId st.page.items resolved with
      | unused =>
        rw [processOffnum_unused_skip _ _ _ _ _ _ hoff hfol hslot] at hrun
        cases hrun
        exact ⟨fun h => hinv.1 h, fun h => hinv.2 h⟩
      | dead =>
        rw [processOffnum_dead_skip _ _ _ _ _ _ hoff hfol hslot] at hrun
        cases hrun
        exact ⟨fun h => hinv.1 h, fun h => hinv.2 h⟩
      | redirect link =>
        have := followRedirects_not_redirected hfol
        rw [hslot] at this
        simp [ItemIdIsRedirected] at this
      | normal htup =>
        rw [processOffnum_kill_normal _ _ _ resolved _ htup hoff hfol hslot] at hrun
        by_cases hvis : st.page.allVisible
        · rw [if_pos hvis] at hrun
          cases hrun
          exact ⟨fun h => (nomatch h), fun _ => ⟨rfl, getD_set_false _ _⟩⟩
        · rw [if_neg hvis] at hrun
          cases hrun
          constructor
          · intro h
            cases h
          · intro _
            have hv : st.page.allVisible = false := by
              simpa using hvis
            refine ⟨hv, ?_⟩
            rcases hmod : st.did_modify_page with _ | _
            · have h1 := (hinv.1 hmod).1
              have h2 : st.page.allVisible = true := by rw [h1, hav]
              rw [h2] at hv
              cases hv
            · exact (hinv.2 hmod).2

theorem processOffnums_kill_inv (blkno maxoffset : Nat) (page0 : Page)
    (vm0 : List Bool) (hav : page0.allVisible = true) :
    ∀ (offnos : List Nat) (st st' : PageSt),
      processOffnums .HEAP_FORCE_KILL blkno maxoffset offnos st = some st' →
      InvKill blkno page0 vm0 st → InvKill blkno page0 vm0 st' := by
  intro offnos
  induction offnos with
  | nil =>
    intro st st' hrun hinv
    unfold processOffnums at hrun
    cases hrun
    exact hinv
  | cons off rest ih =>
    intro st st' hrun hinv
    unfold processOffnums at hrun
    cases hmid : processOffnum .HEAP_FORCE_KILL blkno maxoffset st off with
    | none => rw [hmid] at hrun; cases hrun
    | some st1 =>
      rw [hmid] at hrun
      exact ih st1 st' hrun
        (processOffnum_kill_inv blkno maxoffset off page0 vm0 hav st st1 hmid hinv)

/-- C2: for a page whose all-visible flag is set when the page session
starts, running the per-offset kill loop over any offset group either
actually kills at least one row (`did_modify_page`), in which case both
the page's all-visible flag and the visibility-map bit of the block end
up clear, or kills none, in which case the page (and with it the
all-visible flag) and the visibility map are untouched. -/
theorem C2_kill_visibility_coupling
    (blkno maxoffset : Nat) (offnos : List Nat) (page0 : Page)
    (vm0 : List Bool) (pst : PageSt)
    (hav : page0.allVisible = true)
    (hrun : processOffnums .HEAP_FORCE_KILL blkno maxoffset offnos
      { page := page0, vm := vm0, notices := [],
        did_modify_page := false, did_modify_vm := false } = some pst) :
    (pst.did_modify_page = true →
      pst.page.allVisible = false ∧ pst.vm.getD blkno false = false) ∧
    (pst.did_modify_page = false →
      pst.page = page0 ∧ pst.page.allVisible = true ∧ pst.vm = vm0) := by
  have hinv : InvKill blkno page0 vm0 pst :=
    processOffnums_kill_inv blkno maxoffset page0 vm0 hav offnos _ pst hrun
      ⟨fun _ => ⟨rfl, rfl⟩, fun h => by cases h⟩
  refine ⟨fun h => hinv.2 h, fun h => ?_⟩
  obtain ⟨h1, h2⟩ := hinv.1 h
  exact ⟨h1, by rw [h1, hav], h2⟩

/-- C2 witness: an all-visible page with a normal slot and a dead slot;
killing both offsets kills one row and clears the flag and the map bit,
while targeting only the dead slot leaves the flag set. -/
theorem C2_kill_visibility_coupling_witness :
    ∃ pst, processOffnums .HEAP_FORCE_KILL 0 2 [1, 2]
        { page := { items := [ItemId.normal sampleHeader, ItemId.dead], allVisible := true },
          vm := [true], notices := [],
          did_modify_page := false, did_modify_vm := false } = some pst ∧
      (pst.did_modify_page = true →
        pst.page.allVisible = false ∧ pst.vm.getD 0 false = false) := by
  cases hrun : processOffnums .HEAP_FORCE_KILL 0 2 [1, 2]
      { page := { items := [ItemId.normal sampleHeader, ItemId.dead], allVisible := true },
        vm := [true], notices := [],
        did_modify_page := false, did_modify_vm := false } with
  | none => exact absurd hrun (by decide)
  | some pst =>
    exact ⟨pst, rfl,
      fun h => (C2_kill_visibility_coupling 0 2 [1, 2] _ [true] pst (by decide) hrun).1 h⟩

/-! ### Claim C9 -/

/-- The `HEAP_FORCE_FREEZE` branch rewrites only the resolved slot of
the line-pointer array. -/
theorem processOffnum_freeze_normal
    (blkno maxoffset off resolved : Nat) (st : PageSt) (htup : HeapTupleHeader)
    (hoff : ¬(off = 0 ∨ maxoffset < off))
    (hfollow : followRedirects st.page.items st.page.items.length off = some resolved)
    (hslot : PageGetItemId st.page.items resolved = .normal htup) :
    processOffnum .HEAP_FORCE_FREEZE blkno maxoffset st off =
      some { st with
        did_modify_page := true,
        page := { st.page with
          items := st.page.items.set (resolved - 1) (.normal (freezeTuple blkno off htup)) } } := by
  unfold processOffnum
  rw [if_neg hoff, hfollow]
  simp [hslot, ItemIdIsUsed, ItemIdIsDead]

/-- One freeze step never touches the all-visible flag, the visibility
map, or the number of slots. -/
theorem processOffnum_freeze_frame (blkno maxoffset off : Nat) (st st' : PageSt)
    (hrun : processOffnum .HEAP_FORCE_FREEZE blkno maxoffset st off = some st') :
    st'.page.allVisible = st.page.allVisible ∧ st'.vm = st.vm ∧
      st'.page.items.length = st.page.items.length := by
  by_cases hoff : off = 0 ∨ maxoffset < off
  · rw [processOffnum_out_of_range _ _ _ _ _ hoff] at hrun
    cases hrun
    exact ⟨rfl, rfl, rfl⟩
  · cases hfol : followRedirects st.page.items st.page.items.length off with
    | none =>
      rw [processOffnum_follow_none _ _ _ _ _ hoff hfol] at hrun
      cases hrun
    | some resolved =>
      cases hslot : PageGetItemId st.page.items resolved with
      | unused =>
        rw [processOffnum_unused_skip _ _ _ _ _ _ hoff hfol hslot] at hrun
        cases hrun
        exact ⟨rfl, rfl, rfl⟩
      | dead =>
        rw [processOffnum_dead_skip _ _ _ _ _ _ hoff hfol hslot] at hrun
        cases hrun
        exact ⟨rfl, rfl, rfl⟩
      | redirect link =>
        have := followRedirects_not_redirected hfol
        rw [hslot] at this
        simp [ItemIdIsRedirected] at this
      | normal htup =>
        rw [processOffnum_freeze_normal _ _ _ resolved _ htup hoff hfol hslot] at hrun
        cases hrun
        exact ⟨rfl, rfl, by simp [List.length_set]⟩

/-- The whole per-offset freeze loop never touches the all-visible
flag, the visibility map, or the number of slots. -/
theorem processOffnums_freeze_frame (blkno maxoffset : Nat) :
    ∀ (offnos : List Nat) (st st' : PageSt),
      processOffnums .HEAP_FORCE_FREEZE blkno maxoffset offnos st = some st' →
      st'.page.allVisible = st.page.allVisible ∧ st'.vm = st.vm ∧
        st'.page.items.length = st.page.items.length := by
  intro offnos
  induction offnos with
  | nil =>
    intro st st' hrun
    unfold processOffnums at hrun
    cases hrun
    exact ⟨rfl, rfl, rfl⟩
  | cons off rest ih =>
    intro st st' hrun
    unfold processOffnums at hrun
    cases hmid : processOffnum .HEAP_FORCE_FREEZE blkno maxoffset st off with
    | none => rw [hmid] at hrun; cases hrun
    | some st1 =>
      rw [hmid] at hrun
      obtain ⟨a1, b1, c1⟩ := processOffnum_freeze_frame _ _ _ _ _ hmid
      obtain ⟨a2, b2, c2⟩ := ih st1 st' hrun
      exact ⟨a2.trans a1, b2.trans b1, c2.trans c1⟩

/-- A freeze page session changes no all-visible flag and no
visibility-map bit of any block. -/
theorem processGroup_freeze_frame (nblocks blkno : Nat) (offnos : List Nat)
    (ls ls' : LoopState)
    (hrun : processGroup .HEAP_FORCE_FREEZE nblocks ls blkno offnos = some ls') :
    ls'.vm = ls.vm ∧ ls'.pages.length = ls.pages.length ∧
      ∀ b, (ls'.pages.getD b emptyPage).allVisible =
        (ls.pages.getD b emptyPage).allVisible := by
  unfold processGroup at hrun
  dsimp only at hrun
  split at hrun
  · cases hrun
    exact ⟨rfl, rfl, fun b => rfl⟩
  · cases hoffs : processOffnums .HEAP_FORCE_FREEZE blkno
        (ls.pages.getD blkno emptyPage).items.length offnos
        { page := ls.pages.getD blkno emptyPage, vm := ls.vm, notices := [],
          did_modify_page := false, did_modify_vm := false } with
    | none => rw [hoffs] at hrun; cases hrun
    | some pst =>
      rw [hoffs] at hrun
      cases hrun
      obtain ⟨ha, hv, _⟩ := processOffnums_freeze_frame _ _ _ _ _ hoffs
      refine ⟨hv, by simp [List.length_set], fun b => ?_⟩
      by_cases hb : b = blkno
      · subst hb
        by_cases hlt : b < ls.pages.length
        · rw [getD_set_self_of_lt _ _ _ _ hlt]
          exact ha
        · rw [List.set_eq_of_length_le (by omega)]
      · rw [getD_set_ne_helper _ _ _ _ _ (fun he => hb he.symm)]

/-- The whole freeze do-while loop changes no all-visible flag and no
visibility-map bit. -/
theorem heapForceLoop_freeze_frame (nblocks : Nat) (tids : List ItemPointerData)
    (ntids : Nat) :
    ∀ (fuel curr : Nat) (ls : LoopState) (ls' : LoopState)
      (gs : List (Nat × List Nat)),
      heapForceLoop .HEAP_FORCE_FREEZE nblocks tids ntids fuel curr ls = some (ls', gs) →
      ls'.vm = ls.vm ∧
        ∀ b, (ls'.pages.getD b emptyPage).allVisible =
          (ls.pages.getD b emptyPage).allVisible := by
  intro fuel
  induction fuel with
  | zero =>
    intro curr ls ls' gs hrun
    unfold heapForceLoop at hrun
    cases hrun
  | succ n ih =>
    intro curr ls ls' gs hrun
    unfold heapForceLoop at hrun
    dsimp only at hrun
    cases hgr : processGroup .HEAP_FORCE_FREEZE nblocks ls
        (tids_same_page_fetch_offnums tids curr).1
        ((tids_same_page_fetch_offnums tids curr).2.1.take
          (((tids_same_page_fetch_offnums tids curr).2.2 % 65536 + 65536 - curr) % 65536)) with
    | none => rw [hgr] at hrun; cases hrun
    | some ls1 =>
      rw [hgr] at hrun
      dsimp only at hrun
      obtain ⟨hv1, _, ha1⟩ := processGroup_freeze_frame _ _ _ _ _ hgr
      split at hrun
      · cases hrun
        exact ⟨hv1, ha1⟩
      · cases hrec : heapForceLoop .HEAP_FORCE_FREEZE nblocks tids ntids n
            ((tids_same_page_fetch_offnums tids curr).2.2 % 65536) ls1 with
        | none => rw [hrec] at hrun; cases hrun
        | some r =>
          rw [hrec] at hrun
          dsimp only at hrun
          cases hrun
          obtain ⟨hv2, ha2⟩ := ih _ _ _ _ hrec
          exact ⟨hv2.trans hv1, fun b => (ha2 b).trans (ha1 b)⟩

/-- C9: a completed `heap_force_freeze` invocation leaves the
visibility map exactly as it was and leaves every page's all-visible
flag unchanged, no matter how many rows it froze. -/
theorem C9_force_freeze_preserves_visibility
    (args : CallArgs) (tids : List ItemPointerData) (pages : List Page)
    (vm : List Bool) (ls : LoopState) (gs : List (Nat × List Nat))
    (hrun : heap_force_freeze args tids pages vm = some (.ok (ls, gs))) :
    ls.vm = vm ∧
      ∀ b, (ls.pages.getD b emptyPage).allVisible =
        (pages.getD b emptyPage).allVisible := by
  unfold heap_force_freeze heap_force_common at hrun
  split at hrun
  · cases hrun
  · split at hrun
    · cases hrun
    · split at hrun
      · cases hrun
      · split at hrun
        · cases hrun
        · split at hrun
          · cases hrun
          · dsimp only at hrun
            cases hloop : heapForceLoop .HEAP_FORCE_FREEZE pages.length
                (if 1 < tids.length then sortTids tids else tids) tids.length
                tids.length 0
                { pages := pages, vm := vm, notices := [], reads := [] } with
            | none => rw [hloop] at hrun; cases hrun
            | some r =>
              rw [hloop] at hrun
              dsimp only at hrun
              cases hrun
              exact heapForceLoop_freeze_frame _ _ _ _ _ _ _ _ hloop

/-- The header of the C9 witness row after freezing. -/
def frozenSampleHeader : HeapTupleHeader :=
  { t_xmin := 2, t_xmax := 0, t_xvac := 0, t_infomask := 2819, t_infomask2 := 3,
    t_ctid := ⟨0, 1⟩ }

/-- The final loop state of the concrete freeze invocation used by the
C9 witness. -/
def lsC9 : LoopState :=
  { pages := [{ items := [ItemId.normal frozenSampleHeader], allVisible := true }],
    vm := [true], notices := [], reads := [0] }

/-- C9 witness: a concrete freeze invocation on an all-visible page. -/
theorem C9_force_freeze_preserves_visibility_witness :
    lsC9.vm = [true] ∧
    ∀ b, (lsC9.pages.getD b emptyPage).allVisible =
      (([{ items := [ItemId.normal sampleHeader], allVisible := true }] : List Page).getD
        b emptyPage).allVisible :=
  C9_force_freeze_preserves_visibility ⟨false, false, .relation, true⟩ [⟨0, 1⟩]
    [{ items := [ItemId.normal sampleHeader], allVisible := true }] [true]
    lsC9 [(0, [1])] (by rfl)

/-! ### Claim C3 -/

/-- The pages of a run's outcome; an error (or divergence) leaves the
input pages in place, as `ereport(ERROR)` aborts before any change. -/
def resultPages (pages : List Page)
    (r : Option (Except ErrType (LoopState × List (Nat × List Nat)))) : List Page :=
  match r with
  | some (.ok p) => p.1.pages
  | _ => pages

/-- The visibility map of a run's outcome. -/
def resultVM (vm : List Bool)
    (r : Option (Except ErrType (LoopState × List (Nat × List Nat)))) : List Bool :=
  match r with
  | some (.ok p) => p.1.vm
  | _ => vm

/-- The blocks read by a run. -/
def resultReads
    (r : Option (Except ErrType (LoopState × List (Nat × List Nat)))) : List Nat :=
  match r with
  | some (.ok p) => p.1.reads
  | _ => []

/-- C3: whenever any fatal condition applies (recovery in progress,
nulls in the tid array, empty array, unsupported relation kind, caller
not owner), both operations return an error, read no page, and change
neither the pages nor the visibility map. -/
theorem C3_fatal_errors_short_circuit
    (opt : HeapTupleForceOption) (args : CallArgs) (tids : List ItemPointerData)
    (pages : List Page) (vm : List Bool)
    (h : args.recoveryInProgress = true ∨ args.arrayHasNulls = true ∨
      tids.length = 0 ∨ relkindSupported args.relkind = false ∨
      args.isOwner = false) :
    (∃ e, heap_force_common opt args tids pages vm = some (.error e)) ∧
    resultPages pages (heap_force_common opt args tids pages vm) = pages ∧
    resultVM vm (heap_force_common opt args tids pages vm) = vm ∧
    resultReads (heap_force_common opt args tids pages vm) = [] := by
  have hres : ∃ e, heap_force_common opt args tids pages vm = some (.error e) := by
    unfold heap_force_common
    by_cases h1 : args.recoveryInProgress
    · exact ⟨.recoveryInProgress, by rw [if_pos h1]⟩
    · by_cases h2 : args.arrayHasNulls
      · exact ⟨.nullsInArray, by rw [if_neg h1, if_pos h2]⟩
      · by_cases h3 : tids.length = 0
        · exact ⟨.emptyArray, by rw [if_neg h1, if_neg h2, if_pos h3]⟩
        · by_cases h4 : relkindSupported args.relkind = false
          · exact ⟨.wrongObjectType, by rw [if_neg h1, if_neg h2, if_neg h3, if_pos h4]⟩
          · by_cases h5 : args.isOwner = false
            · exact ⟨.notOwner,
                by rw [if_neg h1, if_neg h2, if_neg h3, if_neg h4, if_pos h5]⟩
            · exfalso
              rcases h with h | h | h | h | h
              · exact h1 h
              · exact h2 h
              · exact h3 h
              · exact h4 h
              · exact h5 h
  obtain ⟨e, he⟩ := hres
  refine ⟨⟨e, he⟩, ?_, ?_, ?_⟩ <;> rw [he] <;> rfl

/-! ### Characterization of the page-group fetch -/

/-- The scan of `fetchAux` collects exactly the maximal prefix of tids
whose block number equals the previous one (equivalently, the
first). -/
theorem fetchAux_eq (b : Nat) :
    ∀ (l : List ItemPointerData),
      fetchAux b l = ((l.takeWhile (fun u => u.blkno == b)).map ItemPointerData.offno,
        (l.takeWhile (fun u => u.blkno == b)).length) := by
  intro l
  induction l with
  | nil => rfl
  | cons t rest ih =>
    unfold fetchAux
    by_cases ht : t.blkno = b
    · rw [if_pos ht, ht, ih]
      simp [List.takeWhile_cons, ht]
    · rw [if_neg ht]
      simp [List.takeWhile_cons, ht]

/-- `tids_same_page_fetch_offnums` on a nonempty suffix: the group is
the head plus the maximal equal-block run following it. -/
theorem fetch_offnums_char (tids : List ItemPointerData) (curr : Nat)
    (t : ItemPointerData) (rest : List ItemPointerData)
    (hd : tids.drop curr = t :: rest) :
    tids_same_page_fetch_offnums tids curr =
      (t.blkno,
       (t :: rest.takeWhile (fun u => u.blkno == t.blkno)).map ItemPointerData.offno,
       curr + 1 + (rest.takeWhile (fun u => u.blkno == t.blkno)).length) := by
  unfold tids_same_page_fetch_offnums
  rw [hd]
  dsimp only
  rw [fetchAux_eq]
  simp

/-- The element right after a `dropWhile` run falsifies the
predicate. -/
theorem dropWhile_head_not {α : Type} (p : α → Bool) :
    ∀ (l : List α) (u : α) (r2 : List α), l.dropWhile p = u :: r2 → p u = false := by
  intro l
  induction l with
  | nil => intro u r2 h; cases h
  | cons a l ih =>
    intro u r2 h
    rw [List.dropWhile_cons] at h
    split at h
    · exact ih u r2 h
    · cases h
      rename_i hpa
      simpa using hpa

/-- Dropping the length of a `takeWhile` run leaves the `dropWhile`
remainder. -/
theorem drop_takeWhile_length {α : Type} (p : α → Bool) :
    ∀ (l : List α), l.drop (l.takeWhile p).length = l.dropWhile p := by
  intro l
  induction l with
  | nil => rfl
  | cons a l ih =>
    rw [List.takeWhile_cons, List.dropWhile_cons]
    by_cases hpa : p a
    · simp only [hpa, if_true, List.length_cons]
      simpa using ih
    · simp [hpa]

/-- Dropping the collected run of a fetch lands on the remainder of the
`takeWhile`/`dropWhile` split. -/
theorem drop_after_fetch (tids : List ItemPointerData) (curr : Nat)
    (t : ItemPointerData) (rest : List ItemPointerData)
    (hd : tids.drop curr = t :: rest) (p : ItemPointerData → Bool) :
    tids.drop (curr + 1 + (rest.takeWhile p).length) = rest.dropWhile p := by
  have h1 : tids.drop (curr + 1 + (rest.takeWhile p).length) =
      (tids.drop curr).drop (1 + (rest.takeWhile p).length) := by
    rw [List.drop_drop]
    congr 1
    omega
  rw [h1, hd]
  have h2 : (t :: rest).drop (1 + (rest.takeWhile p).length) =
      rest.drop (rest.takeWhile p).length := by
    rw [Nat.add_comm]
    rfl
  rw [h2]
  exact drop_takeWhile_length p rest

/-- One unfolding of the do-while loop when no 16-bit truncation
occurs: for a batch of at most 65535 tids, the cursor arithmetic is
exact and the iteration processes the maximal equal-block run starting
at the cursor. -/
theorem heapForceLoop_body_eq (opt : HeapTupleForceOption) (nblocks : Nat)
    (tids : List ItemPointerData) (ntids : Nat)
    (hlen : ntids = tids.length) (hn : ntids ≤ 65535)
    (fuel curr : Nat) (ls : LoopState) (hcurr : curr < ntids)
    (t : ItemPointerData) (rest : List ItemPointerData)
    (hd : tids.drop curr = t :: rest) :
    heapForceLoop opt nblocks tids ntids (fuel + 1) curr ls =
      (match processGroup opt nblocks ls t.blkno
          ((t :: rest.takeWhile (fun u => u.blkno == t.blkno)).map ItemPointerData.offno) with
       | none => none
       | some ls1 =>
         if curr + 1 + (rest.takeWhile (fun u => u.blkno == t.blkno)).length = ntids then
           some (ls1, [(t.blkno,
             (t :: rest.takeWhile (fun u => u.blkno == t.blkno)).map ItemPointerData.offno)])
         else
           match heapForceLoop opt nblocks tids ntids fuel
               (curr + 1 + (rest.takeWhile (fun u => u.blkno == t.blkno)).length) ls1 with
           | none => none
           | some r => some (r.1, (t.blkno,
               (t :: rest.takeWhile (fun u => u.blkno == t.blkno)).map
                 ItemPointerData.offno) :: r.2)) := by
  have hlen2 : tids.length - curr = rest.length + 1 := by
    have := congrArg List.length hd
    simpa [List.length_drop] using this
  have htw : (rest.takeWhile (fun u => u.blkno == t.blkno)).length ≤ rest.length :=
    (List.takeWhile_sublist _).length_le
  conv_lhs => unfold heapForceLoop
  dsimp only
  rw [fetch_offnums_char tids curr t rest hd]
  dsimp only
  have e1 : (curr + 1 + (rest.takeWhile (fun u => u.blkno == t.blkno)).length) % 65536 =
      curr + 1 + (rest.takeWhile (fun u => u.blkno == t.blkno)).length :=
    Nat.mod_eq_of_lt (by omega)
  rw [e1]
  have e2 : (curr + 1 + (rest.takeWhile (fun u => u.blkno == t.blkno)).length +
      65536 - curr) % 65536 = 1 + (rest.takeWhile (fun u => u.blkno == t.blkno)).length := by
    omega
  rw [e2]
  have e3 : ((t :: rest.takeWhile (fun u => u.blkno == t.blkno)).map
      ItemPointerData.offno).take
        (1 + (rest.takeWhile (fun u => u.blkno == t.blkno)).length) =
      (t :: rest.takeWhile (fun u => u.blkno == t.blkno)).map ItemPointerData.offno :=
    List.take_of_length_le (by simp only [List.length_map, List.length_cons]; omega)
  rw [e3]

/-- A batch of 65536 or more tids never lets the do-while loop
terminate: the 16-bit `next_start_ptr` can never equal `ntids`. -/
theorem heapForceLoop_none_of_large (opt : HeapTupleForceOption) (nblocks : Nat)
    (tids : List ItemPointerData) (ntids : Nat) (h : 65536 ≤ ntids) :
    ∀ (fuel curr : Nat) (ls : LoopState)
      (r : LoopState × List (Nat × List Nat)),
      heapForceLoop opt nblocks tids ntids fuel curr ls = some r → False := by
  intro fuel
  induction fuel with
  | zero =>
    intro curr ls r hrun
    unfold heapForceLoop at hrun
    cases hrun
  | succ n ih =>
    intro curr ls r hrun
    unfold heapForceLoop at hrun
    dsimp only at hrun
    cases hgr : processGroup opt nblocks ls (tids_same_page_fetch_offnums tids curr).1
        ((tids_same_page_fetch_offnums tids curr).2.1.take
          (((tids_same_page_fetch_offnums tids curr).2.2 % 65536 + 65536 - curr) % 65536)) with
    | none => rw [hgr] at hrun; cases hrun
    | some ls1 =>
      rw [hgr] at hrun
      dsimp only at hrun
      split at hrun
      · rename_i hstop
        have : (tids_same_page_fetch_offnums tids curr).2.2 % 65536 < 65536 :=
          Nat.mod_lt _ (by omega)
        omega
      · cases hrec : heapForceLoop opt nblocks tids ntids n
            ((tids_same_page_fetch_offnums tids curr).2.2 % 65536) ls1 with
        | none => rw [hrec] at hrun; cases hrun
        | some r2 => exact ih _ _ _ hrec

/-- A full `takeWhile` run is the whole list. -/
theorem takeWhile_eq_self_of_length {α : Type} (p : α → Bool) (l : List α)
    (h : (l.takeWhile p).length = l.length) : l.takeWhile p = l := by
  have happ := List.takeWhile_append_dropWhile p l
  have hlen := congrArg List.length happ
  rw [List.length_append] at hlen
  have hdw : l.dropWhile p = [] := List.length_eq_zero.mp (by omega)
  rw [hdw, List.append_nil] at happ
  exact happ

/-- What one iteration of the page-group loop does to the notices and
the read trace: old notices survive, reads stay valid, and an
out-of-range group leaves its `BlockOutOfRange` notice. -/
theorem processGroup_effects (opt : HeapTupleForceOption) (nblocks : Nat)
    (ls : LoopState) (blkno : Nat) (offnos : List Nat) (ls1 : LoopState)
    (hrun : processGroup opt nblocks ls blkno offnos = some ls1) :
    (∀ n ∈ ls.notices, n ∈ ls1.notices) ∧
    (∀ b ∈ ls1.reads, b ∈ ls.reads ∨ b < nblocks) ∧
    (nblocks ≤ blkno → Notice.blockOutOfRange blkno ∈ ls1.notices) := by
  unfold processGroup at hrun
  dsimp only at hrun
  split at hrun
  · cases hrun
    exact ⟨fun n hn => by simp [hn], fun b hb => Or.inl hb, fun _ => by simp⟩
  · rename_i hblk
    cases hoffs : processOffnums opt blkno
        (ls.pages.getD blkno emptyPage).items.length offnos
        { page := ls.pages.getD blkno emptyPage, vm := ls.vm, notices := [],
          did_modify_page := false, did_modify_vm := false } with
    | none => rw [hoffs] at hrun; cases hrun
    | some pst =>
      rw [hoffs] at hrun
      cases hrun
      refine ⟨fun n hn => by simp [hn], fun b hb => ?_, fun hge => absurd hge hblk⟩
      rcases List.mem_append.mp hb with h | h
      · exact Or.inl h
      · simp only [List.mem_singleton] at h
        subst h
        right
        omega

/-- Across a completed run of the do-while loop: notices only
accumulate, all reads hit valid blocks, and every remaining tid whose
block is out of range has its `BlockOutOfRange` notice in the final
state. -/
theorem heapForceLoop_reads_notices (opt : HeapTupleForceOption) (nblocks : Nat)
    (tids : List ItemPointerData) (ntids : Nat)
    (hlen : ntids = tids.length) (hn : ntids ≤ 65535) :
    ∀ (fuel curr : Nat) (ls ls' : LoopState) (gs : List (Nat × List Nat)),
      curr < ntids →
      heapForceLoop opt nblocks tids ntids fuel curr ls = some (ls', gs) →
      (∀ n ∈ ls.notices, n ∈ ls'.notices) ∧
      (∀ b ∈ ls'.reads, b ∈ ls.reads ∨ b < nblocks) ∧
      (∀ u ∈ tids.drop curr, nblocks ≤ u.blkno →
        Notice.blockOutOfRange u.blkno ∈ ls'.notices) := by
  intro fuel
  induction fuel with
  | zero =>
    intro curr ls ls' gs hcurr hrun
    unfold heapForceLoop at hrun
    cases hrun
  | succ n ih =>
    intro curr ls ls' gs hcurr hrun
    cases hd : tids.drop curr with
    | nil =>
      rw [List.drop_eq_nil_iff] at hd
      omega
    | cons t rest =>
      rw [heapForceLoop_body_eq opt nblocks tids ntids hlen hn n curr ls hcurr t rest hd]
        at hrun
      have hlen2 : tids.length - curr = rest.length + 1 := by
        have := congrArg List.length hd
        simpa [List.length_drop] using this
      have htw : (rest.takeWhile (fun u => u.blkno == t.blkno)).length ≤ rest.length :=
        (List.takeWhile_sublist _).length_le
      cases hgr : processGroup opt nblocks ls t.blkno
          ((t :: rest.takeWhile (fun u => u.blkno == t.blkno)).map
            ItemPointerData.offno) with
      | none => rw [hgr] at hrun; cases hrun
      | some ls1 =>
        rw [hgr] at hrun
        dsimp only at hrun
        obtain ⟨hmono, hreads, hblocknotice⟩ :=
          processGroup_effects opt nblocks ls t.blkno _ ls1 hgr
        split at hrun
        · rename_i hstop
          cases hrun
          have htweq : rest.takeWhile (fun u => u.blkno == t.blkno) = rest :=
            takeWhile_eq_self_of_length _ _ (by omega)
          refine ⟨hmono, hreads, fun u hu hge => ?_⟩
          have hub : u.blkno = t.blkno := by
            rcases List.mem_cons.mp hu with h | h
            · rw [h]
            · rw [← htweq] at h
              simpa using List.mem_takeWhile_imp h
          rw [hub] at hge ⊢
          exact hblocknotice hge
        · rename_i hstop
          cases hrec : heapForceLoop opt nblocks tids ntids n
              (curr + 1 + (rest.takeWhile (fun u => u.blkno == t.blkno)).length) ls1 with
          | none => rw [hrec] at hrun; cases hrun
          | some r =>
            rw [hrec] at hrun
            dsimp only at hrun
            cases hrun
            have hcurr2 : curr + 1 +
                (rest.takeWhile (fun u => u.blkno == t.blkno)).length < ntids := by
              have : curr + 1 +
                  (rest.takeWhile (fun u => u.blkno == t.blkno)).length ≤ ntids := by omega
              omega
            obtain ⟨imono, ireads, inotice⟩ := ih _ ls1 r.1 r.2 hcurr2 hrec
            refine ⟨fun m hm => imono m (hmono m hm), fun b hb => ?_, fun u hu hge => ?_⟩
            · rcases ireads b hb with h | h
              · exact hreads b h
              · exact Or.inr h
            · rcases List.mem_cons.mp hu with h | h
              · subst h
                exact imono _ (hblocknotice hge)
              · rw [← List.takeWhile_append_dropWhile
                    (fun u => u.blkno == t.blkno) rest] at h
                rcases List.mem_append.mp h with h | h
                · have hub : u.blkno = t.blkno := by
                    simpa using List.mem_takeWhile_imp h
                  rw [hub] at hge ⊢
                  exact imono _ (hblocknotice hge)
                · have hmem : u ∈ tids.drop (curr + 1 +
                      (rest.takeWhile (fun u => u.blkno == t.blkno)).length) := by
                    rw [drop_after_fetch tids curr t rest hd]
                    exact h
                  exact inotice u hmem hge

/-- A successful invocation passes all fatal checks and is exactly a
successful run of the do-while loop over the (possibly sorted)
batch. -/
theorem heap_force_common_ok_loop (opt : HeapTupleForceOption) (args : CallArgs)
    (tids : List ItemPointerData) (pages : List Page) (vm : List Bool)
    (ls : LoopState) (gs : List (Nat × List Nat))
    (hrun : heap_force_common opt args tids pages vm = some (.ok (ls, gs))) :
    heapForceLoop opt pages.length (if 1 < tids.length then sortTids tids else tids)
      tids.length tids.length 0
      { pages := pages, vm := vm, notices := [], reads := [] } = some (ls, gs) ∧
    tids.length ≠ 0 := by
  unfold heap_force_common at hrun
  split at hrun
  · cases hrun
  · split at hrun
    · cases hrun
    · split at hrun
      · cases hrun
      · split at hrun
        · cases hrun
        · split at hrun
          · cases hrun
          · dsimp only at hrun
            cases hloop : heapForceLoop opt pages.length
                (if 1 < tids.length then sortTids tids else tids) tids.length
                tids.length 0
                { pages := pages, vm := vm, notices := [], reads := [] } with
            | none => rw [hloop] at hrun; cases hrun
            | some r =>
              rw [hloop] at hrun
              dsimp only at hrun
              cases hrun
              rename_i hne _ _
              exact ⟨rfl, hne⟩

/-- The sorted batch has the batch's length. -/
theorem stids_length (tids : List ItemPointerData) :
    (if 1 < tids.length then sortTids tids else tids).length = tids.length := by
  split
  · exact (List.mergeSort_perm tids tidLeb).length_eq
  · rfl

/-- Membership in the sorted batch coincides with membership in the
batch. -/
theorem stids_mem (tids : List ItemPointerData) (u : ItemPointerData) :
    u ∈ (if 1 < tids.length then sortTids tids else tids) ↔ u ∈ tids := by
  split
  · exact (List.mergeSort_perm tids tidLeb).mem_iff
  · exact Iff.rfl

/-! ### Claim C6 -/

/-- C6: in every completed invocation, storage reads only ever touch
blocks below the relation's block count, and every batch entry whose
block number is at or past the block count has a `BlockOutOfRange`
notice in the final state (its whole group was skipped while the rest
of the batch was still processed to completion). -/
theorem C6_block_out_of_range_group_skip
    (opt : HeapTupleForceOption) (args : CallArgs) (tids : List ItemPointerData)
    (pages : List Page) (vm : List Bool) (ls : LoopState)
    (gs : List (Nat × List Nat))
    (hrun : heap_force_common opt args tids pages vm = some (.ok (ls, gs))) :
    (∀ b ∈ ls.reads, b < pages.length) ∧
    (∀ u ∈ tids, pages.length ≤ u.blkno →
      Notice.blockOutOfRange u.blkno ∈ ls.notices) := by
  obtain ⟨hloop, hne⟩ := heap_force_common_ok_loop opt args tids pages vm ls gs hrun
  have hslen : tids.length = (if 1 < tids.length then sortTids tids else tids).length :=
    (stids_length tids).symm
  have hsmall : tids.length ≤ 65535 := by
    by_contra hbig
    exact heapForceLoop_none_of_large opt pages.length _ tids.length (by omega)
      _ _ _ _ hloop
  have h0 : 0 < tids.length := Nat.pos_of_ne_zero hne
  obtain ⟨hmono, hreads, hnotices⟩ := heapForceLoop_reads_notices opt pages.length
    (if 1 < tids.length then sortTids tids else tids) tids.length hslen hsmall
    tids.length 0 _ ls gs h0 hloop
  constructor
  · intro b hb
    rcases hreads b hb with h | h
    · simp at h
    · exact h
  · intro u hu hge
    have humem : u ∈ (if 1 < tids.length then sortTids tids else tids) :=
      (stids_mem tids u).mpr hu
    exact hnotices u (by rwa [List.drop_zero]) hge

/-- C6 witness: a batch whose only tid points past end-of-relation; its
block is skipped with the notice and no page is read. -/
theorem C6_block_out_of_range_group_skip_witness :
    (∀ b ∈ ([] : List Nat), b < ([pageC7] : List Page).length) ∧
    (∀ u ∈ ([⟨5, 1⟩] : List ItemPointerData),
      ([pageC7] : List Page).length ≤ u.blkno →
      Notice.blockOutOfRange u.blkno ∈ [Notice.blockOutOfRange 5]) := by
  have h := C6_block_out_of_range_group_skip .HEAP_FORCE_KILL
    ⟨false, false, .relation, true⟩ [⟨5, 1⟩] [pageC7] [false]
    { pages := [pageC7], vm := [false],
      notices := [Notice.blockOutOfRange 5], reads := [] }
    [(5, [1])] (by rfl)
  exact h

/-! ### Claim C4 -/

/-- The boolean tid order spelled out. -/
theorem tidLeb_iff (a b : ItemPointerData) :
    tidLeb a b = true ↔
      (a.blkno < b.blkno ∨ (a.blkno = b.blkno ∧ a.offno ≤ b.offno)) := by
  unfold tidLeb
  simp [Nat.blt_eq, Nat.ble_eq]

/-- Pairwise order survives restriction to a suffix drop. -/
theorem pairwise_drop {α : Type} {R : α → α → Prop} {l : List α} (n : Nat)
    (h : l.Pairwise R) : (l.drop n).Pairwise R :=
  List.Pairwise.sublist (List.drop_sublist n l) h

/-- Across a completed run of the do-while loop on a sorted batch:
group block numbers are strictly increasing, every group's offsets are
ascending, and every group's block number is the block of some
remaining tid. -/
theorem heapForceLoop_groups_sorted (opt : HeapTupleForceOption) (nblocks : Nat)
    (tids : List ItemPointerData) (ntids : Nat)
    (hlen : ntids = tids.length) (hn : ntids ≤ 65535)
    (hsort : tids.Pairwise (fun a b => tidLeb a b = true)) :
    ∀ (fuel curr : Nat) (ls ls' : LoopState) (gs : List (Nat × List Nat)),
      curr < ntids →
      heapForceLoop opt nblocks tids ntids fuel curr ls = some (ls', gs) →
      (gs.map Prod.fst).Pairwise (· < ·) ∧
      (∀ g ∈ gs, g.2.Pairwise (· ≤ ·)) ∧
      (∀ g ∈ gs, ∃ u, u ∈ tids.drop curr ∧ g.1 = u.blkno) := by
  intro fuel
  induction fuel with
  | zero =>
    intro curr ls ls' gs hcurr hrun
    unfold heapForceLoop at hrun
    cases hrun
  | succ n ih =>
    intro curr ls ls' gs hcurr hrun
    cases hd : tids.drop curr with
    | nil =>
      rw [List.drop_eq_nil_iff] at hd
      omega
    | cons t rest =>
      rw [heapForceLoop_body_eq opt nblocks tids ntids hlen hn n curr ls hcurr t rest hd]
        at hrun
      have hlen2 : tids.length - curr = rest.length + 1 := by
        have := congrArg List.length hd
        simpa [List.length_drop] using this
      have htw : (rest.takeWhile (fun u => u.blkno == t.blkno)).length ≤ rest.length :=
        (List.takeWhile_sublist _).length_le
      have hdsorted : (t :: rest).Pairwise (fun a b => tidLeb a b = true) := by
        rw [← hd]
        exact pairwise_drop curr hsort
      have hgroup_sorted :
          ((t :: rest.takeWhile (fun u => u.blkno == t.blkno)).map
            ItemPointerData.offno).Pairwise (· ≤ ·) := by
        have hsub : (t :: rest.takeWhile (fun u => u.blkno == t.blkno)).Sublist
            (t :: rest) := (List.takeWhile_sublist _).cons₂ t
        have hpw : (t :: rest.takeWhile (fun u => u.blkno == t.blkno)).Pairwise
            (fun a b => tidLeb a b = true) := List.Pairwise.sublist hsub hdsorted
        have hblk : ∀ u ∈ t :: rest.takeWhile (fun v => v.blkno == t.blkno),
            u.blkno = t.blkno := by
          intro u hu
          rcases List.mem_cons.mp hu with h | h
          · rw [h]
          · simpa using List.mem_takeWhile_imp h
        have hoff : (t :: rest.takeWhile (fun u => u.blkno == t.blkno)).Pairwise
            (fun a b => a.offno ≤ b.offno) := by
          refine hpw.imp_of_mem ?_
          intro a b ha hb hab
          rcases (tidLeb_iff a b).mp hab with h | h
          · rw [hblk a ha, hblk b hb] at h
            omega
          · exact h.2
        exact List.Pairwise.map _ (fun a b h => h) hoff
      cases hgr : processGroup opt nblocks ls t.blkno
          ((t :: rest.takeWhile (fun u => u.blkno == t.blkno)).map
            ItemPointerData.offno) with
      | none => rw [hgr] at hrun; cases hrun
      | some ls1 =>
        rw [hgr] at hrun
        dsimp only at hrun
        split at hrun
        · cases hrun
          refine ⟨by simp, ?_, ?_⟩
          · intro g hg
            rcases List.mem_singleton.mp hg with rfl
            exact hgroup_sorted
          · intro g hg
            rcases List.mem_singleton.mp hg with rfl
            exact ⟨t, List.mem_cons_self t rest, rfl⟩
        · rename_i hstop
          cases hrec : heapForceLoop opt nblocks tids ntids n
              (curr + 1 + (rest.takeWhile (fun u => u.blkno == t.blkno)).length) ls1 with
          | none => rw [hrec] at hrun; cases hrun
          | some r =>
            rw [hrec] at hrun
            dsimp only at hrun
            cases hrun
            have hcurr2 : curr + 1 +
                (rest.takeWhile (fun u => u.blkno == t.blkno)).length < ntids := by
              have : curr + 1 +
                  (rest.takeWhile (fun u => u.blkno == t.blkno)).length ≤ ntids := by omega
              omega
            obtain ⟨iblocks, isorted, iblockof⟩ := ih _ ls1 r.1 r.2 hcurr2 hrec
            have hdropnext : tids.drop (curr + 1 +
                (rest.takeWhile (fun u => u.blkno == t.blkno)).length) =
                rest.dropWhile (fun u => u.blkno == t.blkno) :=
              drop_after_fetch tids curr t rest hd _
            have hblock_gt : ∀ u ∈ rest.dropWhile (fun v => v.blkno == t.blkno),
                t.blkno < u.blkno := by
              intro u hu
              cases hdw : rest.dropWhile (fun v => v.blkno == t.blkno) with
              | nil => rw [hdw] at hu; cases hu
              | cons u0 r2 =>
                have hu0not : (u0.blkno == t.blkno) = false :=
                  dropWhile_head_not _ rest u0 r2 hdw
                have hu0ne : u0.blkno ≠ t.blkno := by simpa using hu0not
                have hu0rest : u0 ∈ rest := by
                  have : u0 ∈ rest.dropWhile (fun v => v.blkno == t.blkno) := by
                    rw [hdw]
                    exact List.mem_cons_self u0 r2
                  exact (List.dropWhile_sublist _).subset this
                have hle : tidLeb t u0 = true :=
                  (List.pairwise_cons.mp hdsorted).1 u0 hu0rest
                have ht_u0 : t.blkno < u0.blkno := by
                  rcases (tidLeb_iff t u0).mp hle with h | h
                  · exact h
                  · exact absurd h.1.symm hu0ne
                rw [hdw] at hu
                rcases List.mem_cons.mp hu with h | h
                · rw [h]
                  exact ht_u0
                · have hdwsorted : (u0 :: r2).Pairwise
                      (fun a b => tidLeb a b = true) := by
                    rw [← hdw]
                    exact List.Pairwise.sublist (List.dropWhile_sublist _)
                      (List.pairwise_cons.mp hdsorted).2
                  have hle2 : tidLeb u0 u = true :=
                    (List.pairwise_cons.mp hdwsorted).1 u h
                  rcases (tidLeb_iff u0 u).mp hle2 with h2 | h2
                  · omega
                  · omega
            refine ⟨?_, ?_, ?_⟩
            · rw [List.map_cons]
              rw [List.pairwise_cons]
              refine ⟨?_, iblocks⟩
              intro b' hb'
              rcases List.mem_map.mp hb' with ⟨g, hg, rfl⟩
              obtain ⟨u, humem, hgu⟩ := iblockof g hg
              rw [hgu]
              rw [hdropnext] at humem
              exact hblock_gt u humem
            · intro g hg
              rcases List.mem_cons.mp hg with rfl | hg
              · exact hgroup_sorted
              · exact isorted g hg
            · intro g hg
              rcases List.mem_cons.mp hg with rfl | hg
              · exact ⟨t, List.mem_cons_self t rest, rfl⟩
              · obtain ⟨u, humem, hgu⟩ := iblockof g hg
                refine ⟨u, ?_, hgu⟩
                rw [hdropnext] at humem
                exact List.mem_cons_of_mem t
                  ((List.dropWhile_sublist _).subset humem)

/-- C4: in every completed invocation, the page groups produced by the
grouping phase have strictly increasing block numbers (in particular,
each block appears in at most one group), and within each group the
offsets are visited in ascending order. -/
theorem C4_grouping_invariant
    (opt : HeapTupleForceOption) (args : CallArgs) (tids : List ItemPointerData)
    (pages : List Page) (vm : List Bool) (ls : LoopState)
    (gs : List (Nat × List Nat))
    (hrun : heap_force_common opt args tids pages vm = some (.ok (ls, gs))) :
    (gs.map Prod.fst).Pairwise (· < ·) ∧
    (gs.map Prod.fst).Nodup ∧
    (∀ g ∈ gs, g.2.Pairwise (· ≤ ·)) := by
  obtain ⟨hloop, hne⟩ := heap_force_common_ok_loop opt args tids pages vm ls gs hrun
  have hslen : tids.length = (if 1 < tids.length then sortTids tids else tids).length :=
    (stids_length tids).symm
  have hsmall : tids.length ≤ 65535 := by
    by_contra hbig
    exact heapForceLoop_none_of_large opt pages.length _ tids.length (by omega)
      _ _ _ _ hloop
  have h0 : 0 < tids.length := Nat.pos_of_ne_zero hne
  have hsorted : (if 1 < tids.length then sortTids tids else tids).Pairwise
      (fun a b => tidLeb a b = true) := by
    split
    · exact List.sorted_mergeSort
        (fun a b c hab hbc => by
          rcases (tidLeb_iff a b).mp hab with h | h <;>
            rcases (tidLeb_iff b c).mp hbc with h2 | h2 <;>
              (apply (tidLeb_iff a c).mpr; omega))
        (fun a b => by
          rcases Nat.lt_trichotomy a.blkno b.blkno with h | h | h
          · simp [(tidLeb_iff a b).mpr (Or.inl h)]
          · rcases Nat.le_total a.offno b.offno with h2 | h2
            · simp [(tidLeb_iff a b).mpr (Or.inr ⟨h, h2⟩)]
            · simp [(tidLeb_iff b a).mpr (Or.inr ⟨h.symm, h2⟩)]
          · simp [(tidLeb_iff b a).mpr (Or.inl h)])
        tids
    · rename_i hlen1
      have : tids.length ≤ 1 := by omega
      cases tids with
      | nil => exact List.Pairwise.nil
      | cons a l =>
        cases l with
        | nil => simp
        | cons b l2 => simp at this
  obtain ⟨hblocks, hsortedgroups, _⟩ := heapForceLoop_groups_sorted opt pages.length
    (if 1 < tids.length then sortTids tids else tids) tids.length hslen hsmall hsorted
    tids.length 0 _ ls gs h0 hloop
  exact ⟨hblocks, hblocks.imp Nat.ne_of_lt, hsortedgroups⟩

/-- The sort of the C4 witness batch. -/
theorem sortTids_C4_witness :
    sortTids [⟨2, 7⟩, ⟨0, 1⟩, ⟨0, 2⟩, ⟨1, 1⟩] =
      ([⟨0, 1⟩, ⟨0, 2⟩, ⟨1, 1⟩, ⟨2, 7⟩] : List ItemPointerData) := by
  simp +decide [sortTids, List.mergeSort, tidLeb]

/-- The final loop state of the C4 witness invocation. -/
def lsC4 : LoopState :=
  { pages := [{ items := [ItemId.dead, ItemId.dead], allVisible := false },
      { items := [ItemId.dead], allVisible := false }],
    vm := [false, false],
    notices := [Notice.alreadyDead 0 2, Notice.blockOutOfRange 2], reads := [0, 1] }

/-- C4 witness: a four-tid unsorted batch over a two-page relation plus
one out-of-range block; the groups come out with strictly increasing
blocks and ascending offsets. -/
theorem C4_grouping_invariant_witness :
    (([(0, [1, 2]), (1, [1]), (2, [7])] : List (Nat × List Nat)).map
      Prod.fst).Pairwise (· < ·) ∧
    (([(0, [1, 2]), (1, [1]), (2, [7])] : List (Nat × List Nat)).map
      Prod.fst).Nodup ∧
    (∀ g ∈ ([(0, [1, 2]), (1, [1]), (2, [7])] : List (Nat × List Nat)),
      g.2.Pairwise (· ≤ ·)) := by
  have hrun : heap_force_common .HEAP_FORCE_KILL ⟨false, false, .relation, true⟩
      [⟨2, 7⟩, ⟨0, 1⟩, ⟨0, 2⟩, ⟨1, 1⟩]
      [{ items := [ItemId.normal sampleHeader, ItemId.dead], allVisible := false },
       { items := [ItemId.normal sampleHeader], allVisible := false }]
      [false, false] = some (.ok (lsC4, [(0, [1, 2]), (1, [1]), (2, [7])])) := by
    unfold heap_force_common
    dsimp only
    rw [sortTids_C4_witness]
    rfl
  exact C4_grouping_invariant .HEAP_FORCE_KILL ⟨false, false, .relation, true⟩
    [⟨2, 7⟩, ⟨0, 1⟩, ⟨0, 2⟩, ⟨1, 1⟩]
    [{ items := [ItemId.normal sampleHeader, ItemId.dead], allVisible := false },
     { items := [ItemId.normal sampleHeader], allVisible := false }]
    [false, false] lsC4 [(0, [1, 2]), (1, [1]), (2, [7])] hrun

/-! ### Acyclicity is preserved by the row mutations -/

/-- Writing a non-redirect value into a slot only shortens redirect
chains. -/
theorem chainIter_set_nonredirect {items : List ItemId} (v : ItemId)
    (hv : ItemIdIsRedirected v = false) {f : Nat} (hf0 : f ≠ 0)
    (hflen : f - 1 < items.length) :
    ∀ (k off target : Nat), chainIter (items.set (f - 1) v) k off = some target →
      chainIter items k off = some target := by
  intro k
  induction k with
  | zero => intro off target h; exact h
  | succ n ih =>
    intro off target h
    have e : ∀ (its : List ItemId) (o : Nat), chainIter its (n + 1) o =
        (redirectTarget its o).bind (chainIter its n) := fun _ _ => rfl
    rw [e] at h ⊢
    by_cases hof : off = f
    · subst hof
      have hnone : redirectTarget (items.set (off - 1) v) off = none := by
        unfold redirectTarget
        rw [PageGetItemId_set_self v hf0 hflen]
        cases v <;> simp_all [ItemIdIsRedirected]
      rw [hnone] at h
      simp at h
    · have heq2 : redirectTarget (items.set (f - 1) v) off = redirectTarget items off := by
        unfold redirectTarget
        rw [PageGetItemId_set_ne v hf0 (fun he => hof he.symm)]
      rw [heq2] at h
      cases ht : redirectTarget items off with
      | none => rw [ht] at h; simp at h
      | some t2 =>
        rw [ht] at h
        simp only [Option.some_bind] at h ⊢
        exact ih t2 target h

/-- Killing or freezing a slot cannot create a redirect cycle. -/
theorem redirectAcyclic_set_nonredirect {items : List ItemId}
    (hacyc : RedirectAcyclic items) (v : ItemId)
    (hv : ItemIdIsRedirected v = false) {f : Nat} (hf0 : f ≠ 0)
    (hflen : f - 1 < items.length) :
    RedirectAcyclic (items.set (f - 1) v) := by
  intro off k hk heq
  exact hacyc off k hk (chainIter_set_nonredirect v hv hf0 hflen k off off heq)

/-- A page with no redirect slot at all has no redirect cycle. -/
theorem redirectAcyclic_of_no_redirects (items : List ItemId)
    (h : ∀ off, redirectTarget items off = none) : RedirectAcyclic items := by
  intro off k hk heq
  cases k with
  | zero => omega
  | succ n =>
    have e : chainIter items (n + 1) off =
        (redirectTarget items off).bind (chainIter items n) := rfl
    rw [e, h] at heq
    simp at heq

/-- The empty page is acyclic. -/
theorem redirectAcyclic_nil : RedirectAcyclic ([] : List ItemId) := by
  apply redirectAcyclic_of_no_redirects
  intro off
  unfold redirectTarget PageGetItemId
  cases off <;> simp

/-! ### Totality of one page session on acyclic pages -/

/-- On an acyclic page, one per-offset step always completes, keeps the
page acyclic, and keeps the slot count. -/
theorem processOffnum_total (opt : HeapTupleForceOption)
    (blkno maxoffset off : Nat) (st : PageSt)
    (hacyc : RedirectAcyclic st.page.items) :
    ∃ st1, processOffnum opt blkno maxoffset st off = some st1 ∧
      RedirectAcyclic st1.page.items ∧
      st1.page.items.length = st.page.items.length := by
  by_cases hoff : off = 0 ∨ maxoffset < off
  · exact ⟨_, processOffnum_out_of_range opt blkno maxoffset off st hoff, hacyc, rfl⟩
  · obtain ⟨f, hfol, hnr⟩ := followRedirects_of_acyclic hacyc off
    cases hslot : PageGetItemId st.page.items f with
    | unused =>
      exact ⟨_, processOffnum_unused_skip opt blkno maxoffset off f st hoff hfol hslot,
        hacyc, rfl⟩
    | dead =>
      exact ⟨_, processOffnum_dead_skip opt blkno maxoffset off f st hoff hfol hslot,
        hacyc, rfl⟩
    | redirect link =>
      rw [hslot] at hnr
      simp [ItemIdIsRedirected] at hnr
    | normal htup =>
      have hne : PageGetItemId st.page.items f ≠ .unused := by
        rw [hslot]
        simp
      obtain ⟨hf0, hflt⟩ := PageGetItemId_ne_unused_bounds hne
      cases opt with
      | HEAP_FORCE_KILL =>
        refine ⟨_, processOffnum_kill_normal blkno maxoffset off f st htup hoff hfol hslot,
          ?_, ?_⟩
        · split_ifs <;>
            exact redirectAcyclic_set_nonredirect hacyc ItemId.dead rfl hf0 hflt
        · split_ifs <;> simp [List.length_set]
      | HEAP_FORCE_FREEZE =>
        refine ⟨_,
          processOffnum_freeze_normal blkno maxoffset off f st htup hoff hfol hslot,
          ?_, ?_⟩
        · exact redirectAcyclic_set_nonredirect hacyc
            (ItemId.normal (freezeTuple blkno off htup)) rfl hf0 hflt
        · simp [List.length_set]

/-- The whole per-offset loop completes on an acyclic page. -/
theorem processOffnums_total (opt : HeapTupleForceOption) (blkno maxoffset : Nat) :
    ∀ (offnos : List Nat) (st : PageSt), RedirectAcyclic st.page.items →
      ∃ pst, processOffnums opt blkno maxoffset offnos st = some pst ∧
        RedirectAcyclic pst.page.items ∧
        pst.page.items.length = st.page.items.length := by
  intro offnos
  induction offnos with
  | nil =>
    intro st hacyc
    exact ⟨st, rfl, hacyc, rfl⟩
  | cons off rest ih =>
    intro st hacyc
    obtain ⟨st1, hstep, hacyc1, hlen1⟩ := processOffnum_total opt blkno maxoffset off st hacyc
    obtain ⟨pst, hrest, hacyc2, hlen2⟩ := ih st1 hacyc1
    refine ⟨pst, ?_, hacyc2, hlen2.trans hlen1⟩
    unfold processOffnums
    rw [hstep]
    exact hrest

/-- A page session completes when every page of the relation is
acyclic, and keeps that invariant. -/
theorem processGroup_total (opt : HeapTupleForceOption) (nblocks : Nat)
    (ls : LoopState) (blkno : Nat) (offnos : List Nat)
    (hacyc : ∀ p ∈ ls.pages, RedirectAcyclic p.items) :
    ∃ ls1, processGroup opt nblocks ls blkno offnos = some ls1 ∧
      (∀ p ∈ ls1.pages, RedirectAcyclic p.items) ∧
      ls1.pages.length = ls.pages.length := by
  unfold processGroup
  by_cases hblk : nblocks ≤ blkno
  · rw [if_pos hblk]
    exact ⟨_, rfl, hacyc, rfl⟩
  · rw [if_neg hblk]
    dsimp only
    have hpage_acyc : RedirectAcyclic (ls.pages.getD blkno emptyPage).items := by
      by_cases hlt : blkno < ls.pages.length
      · rw [List.getD_eq_getElem _ _ hlt]
        exact hacyc _ (List.getElem_mem hlt)
      · rw [List.getD_eq_default _ _ (by omega)]
        exact redirectAcyclic_nil
    obtain ⟨pst, hrun, hpacyc, _⟩ := processOffnums_total opt blkno
      (ls.pages.getD blkno emptyPage).items.length offnos
      { page := ls.pages.getD blkno emptyPage, vm := ls.vm, notices := [],
        did_modify_page := false, did_modify_vm := false } hpage_acyc
    rw [hrun]
    refine ⟨_, rfl, ?_, by simp [List.length_set]⟩
    intro p hp
    rcases List.mem_or_eq_of_mem_set hp with h | h
    · exact hacyc p h
    · rw [h]
      exact hpacyc

/-- The do-while loop completes on a batch of at most 65535 tids over a
relation whose pages are all acyclic. -/
theorem heapForceLoop_total (opt : HeapTupleForceOption) (nblocks : Nat)
    (tids : List ItemPointerData) (ntids : Nat)
    (hlen : ntids = tids.length) (hn : ntids ≤ 65535) :
    ∀ (fuel curr : Nat) (ls : LoopState), curr < ntids → ntids - curr ≤ fuel →
      (∀ p ∈ ls.pages, RedirectAcyclic p.items) →
      ∃ r, heapForceLoop opt nblocks tids ntids fuel curr ls = some r := by
  intro fuel
  induction fuel with
  | zero =>
    intro curr ls hcurr hfuel hacyc
    omega
  | succ n ih =>
    intro curr ls hcurr hfuel hacyc
    cases hd : tids.drop curr with
    | nil =>
      rw [List.drop_eq_nil_iff] at hd
      omega
    | cons t rest =>
      rw [heapForceLoop_body_eq opt nblocks tids ntids hlen hn n curr ls hcurr t rest hd]
      have hlen2 : tids.length - curr = rest.length + 1 := by
        have := congrArg List.length hd
        simpa [List.length_drop] using this
      have htw : (rest.takeWhile (fun u => u.blkno == t.blkno)).length ≤ rest.length :=
        (List.takeWhile_sublist _).length_le
      obtain ⟨ls1, hgr, hacyc1, _⟩ := processGroup_total opt nblocks ls t.blkno
        ((t :: rest.takeWhile (fun u => u.blkno == t.blkno)).map ItemPointerData.offno)
        hacyc
      rw [hgr]
      dsimp only
      by_cases hstop : curr + 1 +
          (rest.takeWhile (fun u => u.blkno == t.blkno)).length = ntids
      · rw [if_pos hstop]
        exact ⟨_, rfl⟩
      · rw [if_neg hstop]
        have hnextlt : curr + 1 +
            (rest.takeWhile (fun u => u.blkno == t.blkno)).length < ntids := by
          omega
        obtain ⟨r, hrec⟩ := ih
          (curr + 1 + (rest.takeWhile (fun u => u.blkno == t.blkno)).length) ls1
          hnextlt (by omega) hacyc1
        rw [hrec]
        exact ⟨_, rfl⟩

/-! ### The groups partition the sorted batch -/

/-- Reattaching a group's block number to its offsets reconstructs the
grouped tids. -/
theorem map_offno_reconstruct (b : Nat) :
    ∀ (l : List ItemPointerData), (∀ u ∈ l, u.blkno = b) →
      (l.map ItemPointerData.offno).map (fun o => (⟨b, o⟩ : ItemPointerData)) = l := by
  intro l
  induction l with
  | nil => intro h; rfl
  | cons a l ih =>
    intro h
    have ha : a.blkno = b := h a (List.mem_cons_self a l)
    simp only [List.map_cons]
    rw [ih (fun u hu => h u (List.mem_cons_of_mem a hu))]
    cases a with
    | mk ab ao =>
      simp at ha
      rw [ha]

/-- The page groups of a completed run, with their block numbers
reattached, concatenate to exactly the remaining batch: every tid is
examined exactly once. -/
theorem heapForceLoop_flatten (opt : HeapTupleForceOption) (nblocks : Nat)
    (tids : List ItemPointerData) (ntids : Nat)
    (hlen : ntids = tids.length) (hn : ntids ≤ 65535) :
    ∀ (fuel curr : Nat) (ls ls' : LoopState) (gs : List (Nat × List Nat)),
      curr < ntids →
      heapForceLoop opt nblocks tids ntids fuel curr ls = some (ls', gs) →
      (gs.map fun g => g.2.map fun o => (⟨g.1, o⟩ : ItemPointerData)).flatten =
        tids.drop curr := by
  intro fuel
  induction fuel with
  | zero =>
    intro curr ls ls' gs hcurr hrun
    unfold heapForceLoop at hrun
    cases hrun
  | succ n ih =>
    intro curr ls ls' gs hcurr hrun
    cases hd : tids.drop curr with
    | nil =>
      rw [List.drop_eq_nil_iff] at hd
      omega
    | cons t rest =>
      rw [heapForceLoop_body_eq opt nblocks tids ntids hlen hn n curr ls hcurr t rest hd]
        at hrun
      have hlen2 : tids.length - curr = rest.length + 1 := by
        have := congrArg List.length hd
        simpa [List.length_drop] using this
      have htw : (rest.takeWhile (fun u => u.blkno == t.blkno)).length ≤ rest.length :=
        (List.takeWhile_sublist _).length_le
      have hblk : ∀ u ∈ t :: rest.takeWhile (fun v => v.blkno == t.blkno),
          u.blkno = t.blkno := by
        intro u hu
        rcases List.mem_cons.mp hu with h | h
        · rw [h]
        · simpa using List.mem_takeWhile_imp h
      have hrecon := map_offno_reconstruct t.blkno
        (t :: rest.takeWhile (fun v => v.blkno == t.blkno)) hblk
      cases hgr : processGroup opt nblocks ls t.blkno
          ((t :: rest.takeWhile (fun u => u.blkno == t.blkno)).map
            ItemPointerData.offno) with
      | none => rw [hgr] at hrun; cases hrun
      | some ls1 =>
        rw [hgr] at hrun
        dsimp only at hrun
        split at hrun
        · rename_i hstop
          cases hrun
          have htweq : rest.takeWhile (fun u => u.blkno == t.blkno) = rest :=
            takeWhile_eq_self_of_length _ _ (by omega)
          have hsingle : (List.map (fun (g : Nat × List Nat) =>
              g.2.map fun o => (⟨g.1, o⟩ : ItemPointerData))
              [(t.blkno, (t :: rest.takeWhile (fun u => u.blkno == t.blkno)).map
                ItemPointerData.offno)]).flatten =
              ((t :: rest.takeWhile (fun u => u.blkno == t.blkno)).map
                ItemPointerData.offno).map
                (fun o => (⟨t.blkno, o⟩ : ItemPointerData)) := by
            simp
          rw [hsingle, hrecon, htweq]
        · rename_i hstop
          cases hrec : heapForceLoop opt nblocks tids ntids n
              (curr + 1 + (rest.takeWhile (fun u => u.blkno == t.blkno)).length) ls1 with
          | none => rw [hrec] at hrun; cases hrun
          | some r =>
            rw [hrec] at hrun
            dsimp only at hrun
            cases hrun
            have hcurr2 : curr + 1 +
                (rest.takeWhile (fun u => u.blkno == t.blkno)).length < ntids := by
              have : curr + 1 +
                  (rest.takeWhile (fun u => u.blkno == t.blkno)).length ≤ ntids := by omega
              omega
            have hflat := ih _ ls1 r.1 r.2 hcurr2 hrec
            have hstep : (List.map (fun (g : Nat × List Nat) =>
                g.2.map fun o => (⟨g.1, o⟩ : ItemPointerData))
                ((t.blkno, (t :: rest.takeWhile (fun u => u.blkno == t.blkno)).map
                  ItemPointerData.offno) :: r.2)).flatten =
                (((t :: rest.takeWhile (fun u => u.blkno == t.blkno)).map
                  ItemPointerData.offno).map
                  (fun o => (⟨t.blkno, o⟩ : ItemPointerData))) ++
                (List.map (fun (g : Nat × List Nat) =>
                  g.2.map fun o => (⟨g.1, o⟩ : ItemPointerData)) r.2).flatten := by
              simp
            rw [hstep, hrecon, hflat, drop_after_fetch tids curr t rest hd]
            rw [List.cons_append]
            rw [List.takeWhile_append_dropWhile]

/-! ### Claim C10 -/

/-- C10: the loop cursors are 16-bit while the batch length is a full
integer.  For every batch of at most 65535 identifiers (over acyclic
pages, so the inner redirect loop cannot hang), the do-while loop of
either operation terminates and examines each identifier exactly once
(the groups, with blocks reattached, are a permutation of the batch);
and for every batch of 65536 or more identifiers the truncated cursor
can never equal `ntids`, so the invocation never terminates. -/
theorem C10_cursor_width_bounds_termination
    (opt : HeapTupleForceOption) (args : CallArgs) (tids : List ItemPointerData)
    (pages : List Page) (vm : List Bool)
    (hrec : args.recoveryInProgress = false) (hnull : args.arrayHasNulls = false)
    (hkind : relkindSupported args.relkind = true) (hown : args.isOwner = true)
    (hne : tids ≠ []) (hsmall : tids.length ≤ 65535)
    (hacyc : ∀ p ∈ pages, RedirectAcyclic p.items) :
    (∃ ls gs, heap_force_common opt args tids pages vm = some (.ok (ls, gs)) ∧
      ((gs.map fun g => g.2.map fun o =>
        (⟨g.1, o⟩ : ItemPointerData)).flatten).Perm tids) ∧
    (∀ tids2 : List ItemPointerData, 65536 ≤ tids2.length →
      heap_force_common opt args tids2 pages vm = none) := by
  have hlen0 : tids.length ≠ 0 := by
    intro h
    exact hne (List.length_eq_zero.mp h)
  constructor
  · have hslen : tids.length = (if 1 < tids.length then sortTids tids else tids).length :=
      (stids_length tids).symm
    obtain ⟨r, hloop⟩ := heapForceLoop_total opt pages.length
      (if 1 < tids.length then sortTids tids else tids) tids.length hslen hsmall
      tids.length 0 { pages := pages, vm := vm, notices := [], reads := [] }
      (Nat.pos_of_ne_zero hlen0) (by omega) hacyc
    have hflat := heapForceLoop_flatten opt pages.length
      (if 1 < tids.length then sortTids tids else tids) tids.length hslen hsmall
      tids.length 0 _ r.1 r.2 (Nat.pos_of_ne_zero hlen0) (by rw [← hloop])
    refine ⟨r.1, r.2, ?_, ?_⟩
    · unfold heap_force_common
      rw [if_neg (by simp [hrec]), if_neg (by simp [hnull]), if_neg hlen0,
        if_neg (by simp [hkind]), if_neg (by simp [hown])]
      dsimp only
      rw [hloop]
    · rw [hflat, List.drop_zero]
      split
      · exact List.mergeSort_perm tids tidLeb
      · exact List.Perm.refl tids
  · intro tids2 hbig
    have hlen2 : tids2.length ≠ 0 := by omega
    unfold heap_force_common
    rw [if_neg (by simp [hrec]), if_neg (by simp [hnull]), if_neg hlen2,
      if_neg (by simp [hkind]), if_neg (by simp [hown])]
    dsimp only
    cases hloop : heapForceLoop opt pages.length
        (if 1 < tids2.length then sortTids tids2 else tids2) tids2.length
        tids2.length 0 { pages := pages, vm := vm, notices := [], reads := [] } with
    | none => rfl
    | some r =>
      exact absurd hloop (fun h =>
        heapForceLoop_none_of_large opt pages.length _ tids2.length hbig _ _ _ _ h)

/-- C10 witness: a one-tid batch on a one-page acyclic relation
terminates with its single group, and any 65536-tid batch diverges. -/
theorem C10_cursor_width_bounds_termination_witness :
    (∃ ls gs, heap_force_common .HEAP_FORCE_KILL ⟨false, false, .relation, true⟩
        [⟨0, 1⟩] [pageC7] [false] = some (.ok (ls, gs)) ∧
      ((gs.map fun g => g.2.map fun o =>
        (⟨g.1, o⟩ : ItemPointerData)).flatten).Perm [⟨0, 1⟩]) ∧
    (∀ tids2 : List ItemPointerData, 65536 ≤ tids2.length →
      heap_force_common .HEAP_FORCE_KILL ⟨false, false, .relation, true⟩
        tids2 [pageC7] [false] = none) := by
  have hacycC7 : RedirectAcyclic pageC7.items := by
    apply redirectAcyclic_of_no_redirects
    intro off
    match off with
    | 0 => rfl
    | 1 => rfl
    | (n + 2) =>
      have h : pageC7.items[n + 1]?.getD ItemId.unused = ItemId.unused := by
        rw [← List.getD_eq_getElem?_getD]
        exact List.getD_eq_default _ _ (by simp [pageC7])
      simp [redirectTarget, PageGetItemId, h]
  exact C10_cursor_width_bounds_termination .HEAP_FORCE_KILL
    ⟨false, false, .relation, true⟩ [⟨0, 1⟩] [pageC7] [false]
    rfl rfl rfl rfl (by simp) (by simp)
    (fun p hp => by rw [List.mem_singleton.mp hp]; exact hacycC7)

/-- C3 witness: a non-owner caller is rejected with no page read and no
state change. -/
theorem C3_fatal_errors_short_circuit_witness :
    (∃ e, heap_force_common .HEAP_FORCE_KILL ⟨false, false, .relation, false⟩ [⟨0, 1⟩]
        [pageC7] [true] = some (.error e)) ∧
    resultPages [pageC7] (heap_force_common .HEAP_FORCE_KILL
      ⟨false, false, .relation, false⟩ [⟨0, 1⟩] [pageC7] [true]) = [pageC7] ∧
    resultVM [true] (heap_force_common .HEAP_FORCE_KILL
      ⟨false, false, .relation, false⟩ [⟨0, 1⟩] [pageC7] [true]) = [true] ∧
    resultReads (heap_force_common .HEAP_FORCE_KILL
      ⟨false, false, .relation, false⟩ [⟨0, 1⟩] [pageC7] [true]) = [] :=
  C3_fatal_errors_short_circuit .HEAP_FORCE_KILL ⟨false, false, .relation, false⟩
    [⟨0, 1⟩] [pageC7] [true] (by decide)

end PgSurgery
